import Mathlib

/-!
# kube-burner measurements: factory and pprof collector

A shallow embedding of `pkg/measurements/factory.go` and `pkg/measurements/pprof.go`.

* Package-level variables (`factory`, `measurementMap`, `kubeburnerCfg`) are fields of an
  explicit `State`; every function takes the state and returns the new one.
* An interface value of type `measurement` is a pointer; the objects behind the pointers
  live in `State.heap` and the method set is a record of functions on them.
* Calls that leave the package (logging, the Kubernetes client, the clock, the file
  system, the SPDY executor) are recorded in, or answered by, explicit parameters.
* A Go panic is the `none` / `Except.error` result of the function that raises it.
* A `go` statement of `Start` is recorded in the trace and its goroutine is not run.
* A goroutine of `getPProf` is a machine that takes its steps on the state the goroutines
  of the pass share, the variable `command` included. `getPProfUnder` is a pass under a
  schedule, which names the goroutine that takes the next step; `getPProf` is the pass in
  which each goroutine runs to its end as soon as it is started, and `wg.Wait()` then has
  nothing left to wait for.
-/

set_option autoImplicit false

namespace config

/-- Modelled from the spec: `config.PProftarget` is declared in package `config`, which is
not among the source files. The fields are the ones `pprof.go` reads
(`{name, namespace/scope, labelSelector, url, bearerToken?}` in the configuration schema). -/
structure PProftarget where
  Name : String
  Namespace : String
  LabelSelector : List (String × String)
  BearerToken : String
  URL : String
deriving DecidableEq, Repr

/-- Modelled from the spec: `config.Measurement` is declared in package `config`, which is
not among the source files. The fields are the ones `factory.go` and `pprof.go` read
(`{name, outputDirectory?, collectionInterval, targets}` in the configuration schema). -/
structure Measurement where
  Name : String
  PProfTargets : List PProftarget
  PProfInterval : Int
  PProfDirectory : String
deriving DecidableEq, Repr

end config

namespace measurements

/-! ## Logging and the call trace -/

/-- Severity of a line written through package `log`. -/
inductive Level where
  | info
  | warn
  | error
deriving DecidableEq, Repr

/-- Address of a plugin object; an interface value of type `measurement` holds one. -/
abbrev Ptr := Nat

/-- What the factory does that is visible from outside, in program order: a log line, a
method call on a plugin object, a `go measurement.start()` statement, a returned
`measurement.stop()`. -/
inductive Event where
  | log (level : Level) (msg : String)
  | setConfig (inst : Ptr) (cfg : config.Measurement)
  | goStart (inst : Ptr)
  | stop (inst : Ptr) (r : Int) (err : Option String)
deriving DecidableEq, Repr

/-! ## Go maps -/

/-- The expression `v, exists := m[k]` on a Go map kept as an association list. -/
def mapLookup (m : List (String × Ptr)) (k : String) : Option Ptr :=
  match m with
  | [] => none
  | (k', v) :: rest => if k' = k then some v else mapLookup rest k

/-- The statement `m[k] = v` on a Go map kept as an association list. -/
def mapStore (m : List (String × Ptr)) (k : String) (v : Ptr) : List (String × Ptr) :=
  match m with
  | [] => [(k, v)]
  | (k', v') :: rest => if k' = k then (k, v) :: rest else (k', v') :: mapStore rest k v

/-- The keys of a Go map. -/
def mapKeys (m : List (String × Ptr)) : List String := m.map Prod.fst

/-! ## factory.go -/

/-- Handle of a `*rest.Config`. -/
structure RestConfig where
  id : Nat
deriving DecidableEq, Repr

/-- Handle of a `*kubernetes.Clientset`. -/
structure Clientset where
  id : Nat
deriving DecidableEq, Repr

/-- Handle of an `*indexers.Indexer`. -/
structure Indexer where
  id : Nat
deriving DecidableEq, Repr

/-- Handle of a `*config.Job`. -/
structure Job where
  id : Nat
deriving DecidableEq, Repr

/-- The struct `measurementFactory`; a nil pointer field is `none`, a nil map is `[]`. -/
structure measurementFactory where
  jobConfig : Option Job
  clientSet : Option Clientset
  restConfig : Option RestConfig
  createFuncs : List (String × Ptr)
  indexer : Option Indexer
  uuid : String
deriving DecidableEq, Repr

/-- The method set of the interface `measurement`, as functions on the object behind the
pointer. `stop` is `none` when the call never returns (a send on a channel nobody receives
from). `start` has no entry: `Start` runs it in a goroutine of its own and does not wait. -/
structure measurement (σ : Type) where
  stop : σ → Option ((Int × Option String) × σ)
  setConfig : σ → config.Measurement → σ

/-- The package-level variables `factory`, `measurementMap` and
`kubeburnerCfg.Measurements`, the plugin objects, and the trace so far. -/
structure State (σ : Type) where
  factory : measurementFactory
  measurementMap : String → Option Ptr
  Measurements : List config.Measurement
  heap : Ptr → σ
  events : List Event

/-- Append one event to the trace. -/
def State.emit {σ : Type} (s : State σ) (e : Event) : State σ :=
  { s with events := s.events ++ [e] }

/-- Replace the object behind pointer `p`. -/
def State.poke {σ : Type} (s : State σ) (p : Ptr) (v : σ) : State σ :=
  { s with heap := fun q => if q = p then v else s.heap q }

/-- The method `(mf *measurementFactory) register`; it is called from
`NewMeasurementFactory` only, after `createFuncs` has been made. -/
def register {σ : Type} (vt : measurement σ) (s : State σ) (measure : config.Measurement)
    (measurementFunc : Ptr) : State σ :=
  match mapLookup s.factory.createFuncs measure.Name with
  | some _ => s.emit (.log .warn ("Measurement already registered: " ++ measure.Name))
  | none =>
    let s1 := (s.poke measurementFunc (vt.setConfig (s.heap measurementFunc) measure)).emit
      (.setConfig measurementFunc measure)
    let s2 : State σ := { s1 with factory :=
      { s1.factory with createFuncs := mapStore s1.factory.createFuncs measure.Name measurementFunc } }
    s2.emit (.log .info ("Registered measurement: " ++ measure.Name))

/-- One iteration of the loop of `NewMeasurementFactory`. -/
def newFactoryStep {σ : Type} (vt : measurement σ) (s : State σ) (m : config.Measurement) :
    State σ :=
  match s.measurementMap m.Name with
  | some measurementFunc => register vt s m measurementFunc
  | none => s.emit (.log .warn ("Measurement not found: " ++ m.Name))

/-- The function `NewMeasurementFactory`. `newForConfig` answers
`kubernetes.NewForConfigOrDie`: `none` is its panic, which ends the function. -/
def NewMeasurementFactory {σ : Type} (vt : measurement σ)
    (newForConfig : RestConfig → Option Clientset) (s : State σ)
    (restConfig : RestConfig) (uuid : String) (indexer : Indexer) : Option (State σ) :=
  let s0 := s.emit (.log .info "📈 Creating measurement factory")
  match newForConfig restConfig with
  | none => none
  | some clientSet =>
    let s1 : State σ := { s0 with factory :=
      { jobConfig := none
        clientSet := some clientSet
        restConfig := some restConfig
        createFuncs := []
        indexer := some indexer
        uuid := uuid } }
    some (s1.Measurements.foldl (newFactoryStep vt) s1)

/-- The function `SetJobConfig`. -/
def SetJobConfig {σ : Type} (s : State σ) (jobConfig : Job) : State σ :=
  { s with factory := { s.factory with jobConfig := some jobConfig } }

/-- The function `Start`. `order` is the order in which `range factory.createFuncs` yields
the entries, which Go leaves unspecified. -/
def Start {σ : Type} (s : State σ) (order : List (String × Ptr)) : State σ :=
  order.foldl (fun st e => st.emit (.goStart e.2)) s

/-- One iteration of the loop of `Stop`: the state and `rc` before, the state and `rc`
after; `none` when `measurement.stop()` does not return. -/
def stopStep {σ : Type} (vt : measurement σ) (acc : State σ × Int) (e : String × Ptr) :
    Option (State σ × Int) :=
  let s0 := acc.1.emit (.log .info ("Stopping measurement: " ++ e.1))
  match vt.stop (s0.heap e.2) with
  | none => none
  | some ((r, err), obj) =>
    let s1 := (s0.poke e.2 obj).emit (.stop e.2 r err)
    let s2 := match err with
      | some msg => s1.emit (.log .error ("Error stopping measurement " ++ e.1 ++ ": " ++ msg))
      | none => s1
    some (s2, if r ≠ 0 then r else acc.2)

/-- The loop of `Stop` over the entries in iteration order. -/
def stopLoop {σ : Type} (vt : measurement σ) :
    List (String × Ptr) → State σ × Int → Option (State σ × Int)
  | [], acc => some acc
  | e :: rest, acc =>
    match stopStep vt acc e with
    | none => none
    | some acc1 => stopLoop vt rest acc1

/-- The function `Stop`: the returned `rc` and the state after; `order` as in `Start`. -/
def Stop {σ : Type} (vt : measurement σ) (s : State σ) (order : List (String × Ptr)) :
    Option (Int × State σ) :=
  (stopLoop vt order (s, 0)).map (fun acc => (acc.2, acc.1))

/-! ## Reading the trace -/

/-- The codes returned by the `stop()` calls of a trace, in order. -/
def stopCodes : List Event → List Int
  | [] => []
  | .stop _ r _ :: rest => r :: stopCodes rest
  | _ :: rest => stopCodes rest

/-- The objects on which `stop()` was called in a trace, in order. -/
def stopCalls : List Event → List Ptr
  | [] => []
  | .stop p _ _ :: rest => p :: stopCalls rest
  | _ :: rest => stopCalls rest

/-- The last non-zero code of a list, 0 when there is none. -/
def lastNonZero (codes : List Int) : Int :=
  ((codes.filter (fun r => r ≠ 0)).getLast?).getD 0

/-- Is the event a `setConfig` call on object `p`? -/
def isSetConfigOn (p : Ptr) : Event → Bool
  | .setConfig q _ => q = p
  | _ => false

/-- Is the event a line of the given level with the given text? -/
def isLog (level : Level) (msg : String) (e : Event) : Bool :=
  e = .log level msg

end measurements

/-! ## Package `path` of the Go standard library, which `pprof.go` calls

`Clean` and `Join` follow `path/path.go`. The `lazybuf` of `Clean` is a plain buffer, kept
last byte first, and the index `r` into the path is the rest of the path from `r` on. -/

namespace path

/-- Where the main loop of `Clean` stands: at the first byte of a path element, inside the
copy loop of an ordinary element, or on the second dot of a `..` element. -/
inductive Mode where
  | start
  | copy
  | skip
deriving DecidableEq, Repr

/-- The test `r == n || path[r] == '/'` on the rest of the input. -/
def atEnd : List Char → Bool
  | [] => true
  | c :: _ => c == '/'

/-- The backtracking loop of the `..` case,
`for out.w > dotdot && out.index(out.w) != '/' { out.w-- }`, entered after one `out.w--`.
The buffer is kept last byte first: the head of the argument is the byte at index `out.w`. -/
def backLoop (dotdot : Nat) : List Char → List Char
  | [] => []
  | c :: rest => if rest.length > dotdot ∧ c ≠ '/' then backLoop dotdot rest else rest

/-- The `..` case of `Clean`: the buffer (last byte first) and `dotdot` after it. -/
def dotdotCase (rooted : Bool) (out : List Char) (dotdot : Nat) : List Char × Nat :=
  if out.length > dotdot then (backLoop dotdot out, dotdot)
  else if !rooted then
    let out1 := if out.length > 0 then '/' :: out else out
    ('.' :: '.' :: out1, ('.' :: '.' :: out1).length)
  else (out, dotdot)

/-- The loop `for r < n` of `Clean` on the input from index `r` on. The output buffer
`out` is kept last byte first, and `out.w` is its length. -/
def cleanLoop (rooted : Bool) : List Char → Mode → List Char → Nat → List Char
  | [], _, out, _ => out
  | _ :: rest, .skip, out, dotdot => cleanLoop rooted rest .start out dotdot
  | c :: rest, .copy, out, dotdot =>
    if c = '/' then cleanLoop rooted rest .start out dotdot
    else cleanLoop rooted rest .copy (c :: out) dotdot
  | c :: rest, .start, out, dotdot =>
    if c = '/' then cleanLoop rooted rest .start out dotdot
    else if c = '.' ∧ atEnd rest then cleanLoop rooted rest .start out dotdot
    else if c = '.' ∧ rest.head? = some '.' ∧ atEnd rest.tail then
      cleanLoop rooted rest .skip (dotdotCase rooted out dotdot).1 (dotdotCase rooted out dotdot).2
    else
      let out1 := if (rooted ∧ out.length ≠ 1) ∨ (¬ rooted ∧ out.length ≠ 0) then '/' :: out else out
      cleanLoop rooted rest .copy (c :: out1) dotdot

/-- The function `path.Clean`, on the bytes of the path. -/
def cleanChars (p : List Char) : List Char :=
  match p with
  | [] => ['.']
  | c :: rest =>
    let rooted : Bool := c == '/'
    let out := if rooted then cleanLoop true rest .start ['/'] 1 else cleanLoop false p .start [] 0
    if out.length = 0 then ['.'] else out.reverse

/-- The buffer `path.Join` builds before cleaning it. -/
def joinBuf : List (List Char) → List Char → List Char
  | [], buf => buf
  | e :: rest, buf =>
    if buf.length > 0 ∨ e ≠ [] then
      joinBuf rest ((if buf.length > 0 then buf ++ ['/'] else buf) ++ e)
    else joinBuf rest buf

/-- The function `path.Join`, on the bytes of the elements. -/
def joinChars (elem : List (List Char)) : List Char :=
  if (elem.map List.length).sum = 0 then [] else cleanChars (joinBuf elem [])

/-- An element of a path that `Clean` copies as it is: not empty, without a slash, and
neither `.` nor `..`. -/
def ordinary (f : List Char) : Prop :=
  f ≠ [] ∧ '/' ∉ f ∧ f ≠ ['.'] ∧ f ≠ ['.', '.']

instance (f : List Char) : Decidable (ordinary f) := by
  unfold ordinary
  infer_instance

/-- The function `path.Clean`. -/
def Clean (p : String) : String := String.mk (cleanChars p.data)

/-- The function `path.Join`. -/
def Join (elem : List String) : String := String.mk (joinChars (elem.map String.data))

end path

namespace measurements

/-! ## pprof.go -/

/-- A channel made by `start`: open while the goroutine of `start` is in its loop, closed
once that goroutine has returned. -/
inductive Chan where
  | open
  | closed
deriving DecidableEq, Repr

/-- The struct `pprof`; `stopChannel` is `none` for a nil channel. -/
structure pprof where
  directory : String
  config : config.Measurement
  stopChannel : Option Chan
deriving DecidableEq, Repr

/-- The method `(p *pprof) stop`: the send `p.stopChannel <- true` is received by the loop
of `start`, which then returns and closes the channel, and `stop` returns `0, nil`. On a nil
channel the send blocks for ever and on a closed one it panics: `none`. -/
def pprof.stop (p : pprof) : Option ((Int × Option String) × pprof) :=
  match p.stopChannel with
  | some .open => some ((0, none), { p with stopChannel := some .closed })
  | _ => none

/-- The method `(p *pprof) setConfig`. -/
def pprof.setConfig (p : pprof) (cfg : config.Measurement) : pprof :=
  let p1 : pprof := { p with directory := "pprof" }
  let p2 : pprof := if cfg.PProfDirectory ≠ "" then { p1 with directory := cfg.PProfDirectory } else p1
  { p2 with config := cfg }

/-- The field `corev1.Container.Name`. -/
structure Container where
  Name : String
deriving DecidableEq, Repr

/-- The field `corev1.PodSpec.Containers`. -/
structure PodSpec where
  Containers : List Container
deriving DecidableEq, Repr

/-- The fields of `corev1.Pod` the collector reads. -/
structure Pod where
  Name : String
  Namespace : String
  Spec : PodSpec
deriving DecidableEq, Repr

/-- The struct `corev1.PodList`. -/
structure PodList where
  Items : List Pod
deriving DecidableEq, Repr

/-- The struct `corev1.PodExecOptions` as the collector fills it. -/
structure PodExecOptions where
  Command : List String
  Container : String
  Stdin : Bool
  Stderr : Bool
  Stdout : Bool
deriving DecidableEq, Repr

/-- The request the collector builds with `Post().Resource(..).Name(..).Namespace(..)
.SubResource(..)` and `VersionedParams`. -/
structure ExecRequest where
  Resource : String
  Name : String
  Namespace : String
  SubResource : String
  Params : PodExecOptions
deriving DecidableEq, Repr

/-- The struct `remotecommand.StreamOptions`; an open file is named by its path. -/
structure StreamOptions where
  Stdin : Option String
  Stdout : String
  Stderr : String
deriving DecidableEq, Repr

/-- A `remotecommand.Executor`: `Stream` gives what the remote command wrote to the output
streams and the error it returns. -/
structure Executor where
  Stream : StreamOptions → String × Option String

/-- The answers of everything outside the package that `pprof.go` calls. A Go result pair
`(value, err)` is a pair of options: `none` is nil. -/
structure Env where
  /-- The call `labels.Set(..).String()`. -/
  labelsString : List (String × String) → String
  /-- The call `clientSet.CoreV1().Pods(namespace).List(ctx, ListOptions{LabelSelector})`. -/
  listPods : Clientset → String → String → Option PodList × Option String
  /-- The successive readings of `time.Now().Unix()`. -/
  now : Nat → Int
  /-- The error of `os.Create` on a path, `none` when the file is created. -/
  createErr : String → Option String
  /-- The call `remotecommand.NewSPDYExecutor(restConfig, "POST", req.URL())`. -/
  newSPDYExecutor : Option RestConfig → ExecRequest → Option Executor × Option String

/-- What `pprof.go` changes outside the package: the log, the files (path and content) and
the number of clock readings taken. -/
structure World where
  log : List (Level × String)
  fs : List (String × String)
  clock : Nat
deriving DecidableEq, Repr

/-- A call of `log.Infof`, `log.Warnf` or `log.Errorf`. -/
def World.logf (w : World) (level : Level) (msg : String) : World :=
  { w with log := w.log ++ [(level, msg)] }

/-- The paths of the files. -/
def fsPaths (fs : List (String × String)) : List String := fs.map Prod.fst

/-- A successful `os.Create`: the file is created, or truncated when it exists. -/
def fsCreate (fs : List (String × String)) (f : String) : List (String × String) :=
  (f, "") :: fs.filter (fun e => e.1 ≠ f)

/-- Writing `out` at the end of an open file. -/
def fsWrite (fs : List (String × String)) (f : String) (out : String) : List (String × String) :=
  fs.map (fun e => if e.1 = f then (e.1, e.2 ++ out) else e)

/-- The message of the runtime panic on a nil pointer or nil interface. -/
def nilDereference : String := "runtime error: invalid memory address or nil pointer dereference"

/-- The message of the runtime panic of `s[0]` on an empty slice. -/
def indexOutOfRange : String := "runtime error: index out of range [0] with length 0"

/-- The function `getPods`: the pods and the world after, or the panic. -/
def getPods (env : Env) (fac : measurementFactory) (w : World) (target : config.PProftarget) :
    Except String (List Pod × World) :=
  let labelSelector := env.labelsString target.LabelSelector
  match fac.clientSet with
  | none => .error nilDereference
  | some clientSet =>
    let res := env.listPods clientSet target.Namespace labelSelector
    let w1 := match res.2 with
      | some err =>
        w.logf .error ("Error found listing pods labeled with " ++ labelSelector ++ ": " ++ err)
      | none => w
    match res.1 with
    | none => .error nilDereference
    | some podList => .ok (podList.Items, w1)

/-- The artifact name `fmt.Sprintf("%s-%s-%d.pprof", target.Name, pod.Name, ts)`. -/
def pprofFile (target : config.PProftarget) (pod : Pod) (ts : Int) : String :=
  target.Name ++ "-" ++ pod.Name ++ "-" ++ toString ts ++ ".pprof"

/-- The artifact path `path.Join(p.directory, pprofFile)`. -/
def artifactPath (directory : String) (target : config.PProftarget) (pod : Pod) (ts : Int) :
    String :=
  path.Join [directory, pprofFile target pod ts]

/-- The value the collector assigns to `command`. -/
def buildCommand (target : config.PProftarget) : List String :=
  if target.BearerToken ≠ "" then
    ["curl", "-sSLkH", "Authorization:  Bearer " ++ target.BearerToken, target.URL]
  else
    ["curl", "-sSLkH", target.URL]

/-- The request the collector sends for a pod, `none` when `pod.Spec.Containers[0]` panics. -/
def execRequest (command : List String) (pod : Pod) : Option ExecRequest :=
  match pod.Spec.Containers with
  | [] => none
  | c :: _ =>
    some
      { Resource := "pods"
        Name := pod.Name
        Namespace := pod.Namespace
        SubResource := "exec"
        Params := { Command := command, Container := c.Name, Stdin := false, Stderr := true, Stdout := true } }

/-- The options the collector passes to `exec.Stream` for the open file `f`. -/
def streamOptions (f : String) : StreamOptions :=
  { Stdin := none, Stdout := f, Stderr := f }

/-- What the goroutines of one pass share besides the world: the variable `command`, which
`getPProf` declares outside them (nil, here `[]`, until one of them assigns it), and, for
the record, the requests handed to `NewSPDYExecutor`, in the order of the calls. -/
structure Pass where
  world : World
  command : List String
  requests : List ExecRequest
deriving DecidableEq, Repr

/-- The shared state at the beginning of a pass. -/
def Pass.fresh (w : World) : Pass :=
  { world := w, command := [], requests := [] }

/-- A goroutine `getPProf` has started for one target and one pod: where it stands, with
the locals it holds there. -/
inductive Task where
  /-- Before `pprofFile := ...`. -/
  | started (target : config.PProftarget) (pod : Pod)
  /-- The file `f` is open; before the assignment to `command`. -/
  | created (target : config.PProftarget) (pod : Pod) (f : String)
  /-- The goroutine has assigned `command`; before the request is built. -/
  | assigned (target : config.PProftarget) (pod : Pod) (f : String)
  /-- After `NewSPDYExecutor`, which returned `exec`; before `exec.Stream`. -/
  | requested (target : config.PProftarget) (pod : Pod) (f : String) (exec : Option Executor)
  /-- The goroutine has returned. -/
  | finished

/-- Has the goroutine returned? -/
def Task.isFinished : Task → Bool
  | .finished => true
  | _ => false

/-- The number of steps a goroutine has yet to take at most. -/
def Task.rank : Task → Nat
  | .started _ _ => 4
  | .created _ _ _ => 3
  | .assigned _ _ _ => 2
  | .requested _ _ _ _ => 1
  | .finished => 0

/-- One step of a goroutine on the shared state: the goroutine and the shared state after
it, or the panic that ends the process. The steps are: creating the file; assigning
`command`; building the request, which reads `command`, and the executor; streaming. -/
def Task.step (env : Env) (fac : measurementFactory) (p : pprof) :
    Task → Pass → Except String (Task × Pass)
  | .started target pod, s =>
    let ts := env.now s.world.clock
    let w0 : World := { s.world with clock := s.world.clock + 1 }
    let name := pprofFile target pod ts
    let f := path.Join [p.directory, name]
    match env.createErr f with
    | some err =>
      .ok (.finished,
        { s with world := w0.logf .error ("Error creating pprof file " ++ name ++ ": " ++ err) })
    | none => .ok (.created target pod f, { s with world := { w0 with fs := fsCreate w0.fs f } })
  | .created target pod f, s =>
    .ok (.assigned target pod f, { s with command := buildCommand target })
  | .assigned target pod f, s =>
    match fac.clientSet with
    | none => .error nilDereference
    | some _ =>
      match execRequest s.command pod with
      | none => .error indexOutOfRange
      | some req =>
        let res := env.newSPDYExecutor fac.restConfig req
        let w2 := match res.2 with
          | some err =>
            s.world.logf .error
              ("Failed to execute pprof command on " ++ target.Name ++ ": " ++ err)
          | none => s.world
        .ok (.requested target pod f res.1,
          { s with world := w2, requests := s.requests ++ [req] })
  | .requested target _ f exec, s =>
    match exec with
    | none => .error nilDereference
    | some exec =>
      let streamed := exec.Stream (streamOptions f)
      let w3 : World := { s.world with fs := fsWrite s.world.fs f streamed.1 }
      match streamed.2 with
      | some err =>
        .ok (.finished,
          { s with world :=
            w3.logf .error ("Failed to get results from " ++ target.Name ++ ": " ++ err) })
      | none => .ok (.finished, { s with world := w3 })
  | .finished, s => .ok (.finished, s)

/-- A number of steps of one goroutine with no step of another in between. -/
def Task.run (env : Env) (fac : measurementFactory) (p : pprof) :
    Nat → Task → Pass → Except String (Task × Pass)
  | 0, t, s => .ok (t, s)
  | n + 1, t, s =>
    match t.step env fac p s with
    | .error e => .error e
    | .ok (t1, s1) => Task.run env fac p n t1 s1

/-- The goroutine `getPProf` starts for one target and one pod, run alone from its start
to its end, which it reaches within four steps: the shared state after it, or the panic. -/
def collectorTask (env : Env) (fac : measurementFactory) (p : pprof) (s : Pass)
    (target : config.PProftarget) (pod : Pod) : Except String Pass :=
  match Task.run env fac p 4 (.started target pod) s with
  | .error e => .error e
  | .ok (_, s1) => .ok s1

/-- The inner loop of `getPProf` when each goroutine runs to its end as soon as it is
started. -/
def collectPods (env : Env) (fac : measurementFactory) (p : pprof)
    (target : config.PProftarget) : List Pod → Pass → Except String Pass
  | [], s => .ok s
  | pod :: rest, s =>
    match collectorTask env fac p s target pod with
    | .error e => .error e
    | .ok s1 => collectPods env fac p target rest s1

/-- The outer loop of `getPProf` over the targets when each goroutine runs to its end as
soon as it is started. -/
def collectTargets (env : Env) (fac : measurementFactory) (p : pprof) :
    List config.PProftarget → Pass → Except String Pass
  | [], s => .ok s
  | target :: rest, s =>
    match getPods env fac (s.world.logf .info ("Collecting " ++ target.Name ++ " pprof")) target with
    | .error e => .error e
    | .ok (podList, w1) =>
      match collectPods env fac p target podList { s with world := w1 } with
      | .error e => .error e
      | .ok s2 => collectTargets env fac p rest s2

/-- The method `(p *pprof) getPProf` when each goroutine runs to its end as soon as it is
started: one pass over `p.config.PProfTargets`, ended by `wg.Wait()`. -/
def pprof.getPProf (env : Env) (fac : measurementFactory) (p : pprof) (w : World) :
    Except String World :=
  match collectTargets env fac p p.config.PProfTargets (Pass.fresh w) with
  | .error e => .error e
  | .ok s => .ok s.world

/-! ## A pass under a schedule -/

/-- A pass of `getPProf` under way: the shared state, the targets the outer loop has yet to
reach, the pods of the current target for which the inner loop has yet to start a
goroutine, and the goroutines started so far, in the order of their start. -/
structure Run where
  pass : Pass
  targets : List config.PProftarget
  pods : List (config.PProftarget × Pod)
  tasks : List Task

/-- One step of `getPProf` itself: the `go` statement for the next pod of the current
target, or, when there is none left, the log line and `getPods` for the next target, or,
when there is none left either, nothing (`wg.Wait()`). -/
def Run.mainStep (env : Env) (fac : measurementFactory) (r : Run) : Except String Run :=
  match r.pods with
  | (target, pod) :: rest => .ok { r with pods := rest, tasks := r.tasks ++ [.started target pod] }
  | [] =>
    match r.targets with
    | [] => .ok r
    | target :: rest =>
      match getPods env fac
        (r.pass.world.logf .info ("Collecting " ++ target.Name ++ " pprof")) target with
      | .error e => .error e
      | .ok (podList, w1) =>
        .ok { r with
          pass := { r.pass with world := w1 }
          targets := rest
          pods := podList.map (fun pod => (target, pod)) }

/-- One step of the goroutine started as number `i` (nothing when there is none yet). -/
def Run.taskStep (env : Env) (fac : measurementFactory) (p : pprof) (i : Nat) (r : Run) :
    Except String Run :=
  match r.tasks[i]? with
  | none => .ok r
  | some t =>
    match t.step env fac p r.pass with
    | .error e => .error e
    | .ok (t1, s1) => .ok { r with pass := s1, tasks := r.tasks.set i t1 }

/-- The steps of a schedule, in order: `none` is a step of `getPProf` itself and `some i` a
step of goroutine number `i`. -/
def Run.steps (env : Env) (fac : measurementFactory) (p : pprof) :
    List (Option Nat) → Run → Except String Run
  | [], r => .ok r
  | none :: rest, r =>
    match r.mainStep env fac with
    | .error e => .error e
    | .ok r1 => Run.steps env fac p rest r1
  | some i :: rest, r =>
    match r.taskStep env fac p i with
    | .error e => .error e
    | .ok r1 => Run.steps env fac p rest r1

/-- The pass has ended: both loops are through and every goroutine has returned, so that
`wg.Wait()` returns. -/
def Run.ended (r : Run) : Bool :=
  r.targets.isEmpty && r.pods.isEmpty && r.tasks.all Task.isFinished

/-- The method `(p *pprof) getPProf` under a schedule of its goroutines: the pass after the
steps of the schedule, or the panic. -/
def pprof.getPProfUnder (env : Env) (fac : measurementFactory) (p : pprof) (w : World)
    (schedule : List (Option Nat)) : Except String Run :=
  Run.steps env fac p schedule
    { pass := Pass.fresh w, targets := p.config.PProfTargets, pods := [], tasks := [] }

/-- The pods a target resolves to for the factory: the items the client hands back, none
without a client set. -/
def resolvedBy (env : Env) (fac : measurementFactory) (target : config.PProftarget) :
    List Pod :=
  match fac.clientSet with
  | none => []
  | some clientSet =>
    match (env.listPods clientSet target.Namespace (env.labelsString target.LabelSelector)).1 with
    | some podList => podList.Items
    | none => []

/-- The schedule of the inner loop in which each goroutine runs to its end as soon as it is
started, when `k` goroutines were started before. -/
def podsInOrder : Nat → List Pod → List (Option Nat)
  | _, [] => []
  | k, _ :: rest => [none, some k, some k, some k, some k] ++ podsInOrder (k + 1) rest

/-- The schedule of a pass in which each goroutine runs to its end as soon as it is
started, when `k` goroutines were started before. -/
def inOrder (env : Env) (fac : measurementFactory) : Nat → List config.PProftarget →
    List (Option Nat)
  | _, [] => []
  | k, target :: rest =>
    none :: (podsInOrder k (resolvedBy env fac target) ++
      inOrder env fac (k + (resolvedBy env fac target).length) rest)

/-! ## Reading a pass -/

/-- The pods a target resolves to: the items of the list the client hands back. -/
def resolved (env : Env) (clientSet : Clientset) (target : config.PProftarget) : List Pod :=
  match (env.listPods clientSet target.Namespace (env.labelsString target.LabelSelector)).1 with
  | some podList => podList.Items
  | none => []

/-- The (target, pod) pairs of a pass, in the order of the two loops. -/
def passPairs (env : Env) (clientSet : Clientset) (targets : List config.PProftarget) :
    List (config.PProftarget × Pod) :=
  targets.flatMap (fun t => (resolved env clientSet t).map (fun pod => (t, pod)))

/-- The artifact paths of a list of pairs when the first of them takes clock reading `c`
and each pair takes one reading. -/
def pairPaths (env : Env) (directory : String) : Nat → List (config.PProftarget × Pod) → List String
  | _, [] => []
  | c, (t, pod) :: rest => artifactPath directory t pod (env.now c) :: pairPaths env directory (c + 1) rest

/-- The code kept after a run of the loop of `Stop`: the last non-zero one, or the code
held before when there is none. -/
def keepLast (codes : List Int) (rc : Int) : Int :=
  ((codes.filter (fun r => r ≠ 0)).getLast?).getD rc

/-! ## Concrete plugins and states -/

/-- The method set of `*pprof`. -/
def pprofMethods : measurement pprof :=
  { stop := pprof.stop, setConfig := pprof.setConfig }

/-- A plugin that holds the code its `stop()` returns, with an error when it is not 0. -/
def fixedCodeMethods : measurement Int :=
  { stop := fun code => some ((code, if code = 0 then none else some "failed"), code)
    setConfig := fun code _ => code }

/-- The zero value of `measurementFactory`, which `factory` holds before
`NewMeasurementFactory`. -/
def zeroFactory : measurementFactory :=
  { jobConfig := none, clientSet := none, restConfig := none, createFuncs := [], indexer := none,
    uuid := "" }

/-- The map `measurementMap` after `init` of `pprof.go`: the name `pprof` holds the object
at address 0. -/
def initMeasurementMap : String → Option Ptr :=
  fun name => if name = "pprof" then some 0 else none

/-- A measurement entry of the configuration with the given name and directory. -/
def entry (name directory : String) : config.Measurement :=
  { Name := name, PProfTargets := [], PProfInterval := 1, PProfDirectory := directory }

/-- The zero value of `pprof`, which `init` stores in `measurementMap`. -/
def zeroPprof : pprof :=
  { directory := "", config := entry "" "", stopChannel := none }

/-- A process that configures `pprof` twice and an unknown name once. -/
def sampleState : State pprof :=
  { factory := zeroFactory
    measurementMap := initMeasurementMap
    Measurements := [entry "pprof" "first", entry "podLatency" "", entry "pprof" "second"]
    heap := fun _ => zeroPprof
    events := [] }

/-- A process whose registry holds `pprof`, configured with directory `first`. -/
def registeredState : State pprof :=
  { factory := { zeroFactory with createFuncs := [("pprof", 0)] }
    measurementMap := initMeasurementMap
    Measurements := [entry "pprof" "first"]
    heap := fun _ => zeroPprof.setConfig (entry "pprof" "first")
    events := [.setConfig 0 (entry "pprof" "first")] }

/-- A process with three plugins registered, holding the codes 3, 0 and 5. -/
def threePlugins : State Int :=
  { factory := { zeroFactory with createFuncs := [("a", 0), ("b", 1), ("c", 2)] }
    measurementMap := fun _ => none
    Measurements := []
    heap := fun p => if p = 0 then 3 else if p = 1 then 0 else 5
    events := [] }

/-- A client set builder that accepts every configuration. -/
def acceptConfig : RestConfig → Option Clientset :=
  fun c => some { id := c.id }

/-- A target with the given name and bearer token. -/
def sampleTarget (name token : String) : config.PProftarget :=
  { Name := name
    Namespace := "ns"
    LabelSelector := [("app", name)]
    BearerToken := token
    URL := "https://localhost:6443/debug/pprof/heap" }

/-- A pod with the given name and one container. -/
def samplePod (name : String) : Pod :=
  { Name := name, Namespace := "ns", Spec := { Containers := [{ Name := "main" }] } }

/-- The number a run of decimal digits stands for. -/
def decValue (ds : List Char) : Nat :=
  ds.foldl (fun acc c => acc * 10 + (c.toNat - 48)) 0

/-- The paths of the files after a run of `os.Create` calls on `paths`, in order, from the
paths `base`: a call that succeeds puts its path in front, once. -/
def applyCreates (env : Env) : List String → List String → List String
  | [], base => base
  | q :: rest, base =>
    match env.createErr q with
    | none => applyCreates env rest (q :: base.filter (fun x => x ≠ q))
    | some _ => applyCreates env rest base

/-- An executor whose remote command writes `out` and ends without error. -/
def echoExecutor (out : String) : Executor :=
  { Stream := fun _ => (out, none) }

/-- A label set rendered as `key=value` pairs joined by commas. -/
def sampleLabels (l : List (String × String)) : String :=
  ",".intercalate (l.map (fun kv => kv.1 ++ "=" ++ kv.2))

/-- A cluster where `app=api` selects the pods `e1` and `e2`, `app=a-b` the pod `c` and
`app=a` the pod `b-c`; listing with any other selector fails, and the client hands back an
empty list with the error. The clock stands at 1600000000, every file can be created and
every remote command writes `profile`. -/
def sampleEnv : Env :=
  { labelsString := sampleLabels
    listPods := fun _ _ selector =>
      if selector = "app=api" then (some { Items := [samplePod "e1", samplePod "e2"] }, none)
      else if selector = "app=a-b" then (some { Items := [samplePod "c"] }, none)
      else if selector = "app=a" then (some { Items := [samplePod "b-c"] }, none)
      else (some { Items := [] }, some "connection refused")
    now := fun _ => 1600000000
    createErr := fun _ => none
    newSPDYExecutor := fun _ _ => (some (echoExecutor "profile"), none) }

/-- The cluster of `sampleEnv` when no executor can be built: `NewSPDYExecutor` returns
`nil` and an error. -/
def noExecutorEnv : Env :=
  { sampleEnv with newSPDYExecutor := fun _ _ => (none, some "unable to upgrade connection") }

/-- The cluster of `sampleEnv` when every listing fails and the client hands back a list
of one pod, `e1`, with the error. -/
def itemsWithErrorEnv : Env :=
  { sampleEnv with
    listPods := fun _ _ _ => (some { Items := [samplePod "e1"] }, some "unexpected EOF") }

/-- A schedule for a pass over a first target with two pods and a second target with one:
`getPProf` starts the three goroutines; goroutine 0 creates its file and assigns `command`;
goroutine 2 creates its file and assigns `command`; then goroutine 0 builds its request and
streams, and goroutines 2 and 1 run to their end. -/
def raceSchedule : List (Option Nat) :=
  [none, none, none, none, none,
    some 0, some 0, some 2, some 2, some 0, some 0, some 2, some 2,
    some 1, some 1, some 1, some 1]

/-- The factory after `NewMeasurementFactory` with nothing registered. -/
def readyFactory : measurementFactory :=
  { zeroFactory with clientSet := some { id := 7 }, restConfig := some { id := 7 } }

/-- A `pprof` plugin configured with the given targets and the default directory. -/
def samplePprof (targets : List config.PProftarget) : pprof :=
  zeroPprof.setConfig
    { Name := "pprof", PProfTargets := targets, PProfInterval := 1, PProfDirectory := "" }

/-- A world with an empty log, no file and no clock reading taken. -/
def emptyWorld : World :=
  { log := [], fs := [], clock := 0 }

end measurements

/-! # Theorems -/

namespace measurements

/-! ## The trace readers on concatenated traces -/

theorem stopCodes_append (a b : List Event) : stopCodes (a ++ b) = stopCodes a ++ stopCodes b := by
  induction a with
  | nil => rfl
  | cons e rest ih => cases e <;> simp [stopCodes, ih]

theorem stopCalls_append (a b : List Event) : stopCalls (a ++ b) = stopCalls a ++ stopCalls b := by
  induction a with
  | nil => rfl
  | cons e rest ih => cases e <;> simp [stopCalls, ih]

theorem keepLast_cons (r : Int) (codes : List Int) (rc : Int) :
    keepLast (r :: codes) rc = keepLast codes (if r ≠ 0 then r else rc) := by
  unfold keepLast
  by_cases h : r = 0
  · simp [h]
  · simp only [ne_eq, h, not_false_eq_true, decide_True, List.filter_cons_of_pos, if_true]
    cases hf : List.filter (fun r => decide (¬ r = 0)) codes with
    | nil => simp
    | cons x xs =>
      rw [List.getLast?_cons_cons, List.getLast?_eq_getLast _ (List.cons_ne_nil x xs)]
      rfl

/-- What one iteration of the loop of `Stop` adds to the trace. -/
theorem stopStep_spec {σ : Type} (vt : measurement σ) (acc acc1 : State σ × Int)
    (e : String × Ptr) (h : stopStep vt acc e = some acc1) :
    ∃ new r, acc1.1.events = acc.1.events ++ new ∧ stopCalls new = [e.2] ∧
      stopCodes new = [r] ∧ acc1.2 = (if r ≠ 0 then r else acc.2) := by
  unfold stopStep at h
  simp only at h
  split at h
  · exact absurd h (by simp)
  · rename_i r err obj hstop
    cases err with
    | none =>
      simp only [Option.some.injEq] at h
      subst h
      exact ⟨[.log .info ("Stopping measurement: " ++ e.1), .stop e.2 r none], r,
        by simp [State.emit, State.poke], by simp [stopCalls], by simp [stopCodes], rfl⟩
    | some msg =>
      simp only [Option.some.injEq] at h
      subst h
      exact ⟨[.log .info ("Stopping measurement: " ++ e.1), .stop e.2 r (some msg),
          .log .error ("Error stopping measurement " ++ e.1 ++ ": " ++ msg)], r,
        by simp [State.emit, State.poke], by simp [stopCalls], by simp [stopCodes], rfl⟩

/-- What the loop of `Stop` adds to the trace, and the code it ends with. -/
theorem stopLoop_spec {σ : Type} (vt : measurement σ) (order : List (String × Ptr)) :
    ∀ acc acc1 : State σ × Int, stopLoop vt order acc = some acc1 →
      ∃ new, acc1.1.events = acc.1.events ++ new ∧ stopCalls new = order.map Prod.snd ∧
        acc1.2 = keepLast (stopCodes new) acc.2 := by
  induction order with
  | nil =>
    intro acc acc1 h
    simp only [stopLoop, Option.some.injEq] at h
    subst h
    exact ⟨[], by simp, rfl, rfl⟩
  | cons e rest ih =>
    intro acc acc1 h
    simp only [stopLoop] at h
    split at h
    · exact absurd h (by simp)
    · rename_i acc0 hstep
      obtain ⟨new0, r, hev0, hcalls0, hcodes0, hrc0⟩ := stopStep_spec vt acc acc0 e hstep
      obtain ⟨new1, hev1, hcalls1, hrc1⟩ := ih acc0 acc1 h
      refine ⟨new0 ++ new1, ?_, ?_, ?_⟩
      · rw [hev1, hev0, List.append_assoc]
      · rw [stopCalls_append, hcalls0, hcalls1]; rfl
      · rw [stopCodes_append, hcodes0, hrc1, hrc0]
        exact (keepLast_cons r (stopCodes new1) acc.2).symm

/-- The loop of `Stop` ends when every `stop()` returns. -/
theorem stopLoop_isSome {σ : Type} (vt : measurement σ) (hret : ∀ obj, (vt.stop obj).isSome)
    (order : List (String × Ptr)) : ∀ acc : State σ × Int, (stopLoop vt order acc).isSome := by
  induction order with
  | nil => intro acc; rfl
  | cons e rest ih =>
    intro acc
    have hstep : (stopStep vt acc e).isSome := by
      unfold stopStep
      simp only
      have := hret ((acc.1.emit (.log .info ("Stopping measurement: " ++ e.1))).heap e.2)
      split
      · rename_i hnone; rw [hnone] at this; exact absurd this (by simp)
      · rfl
    obtain ⟨acc0, hacc0⟩ := Option.isSome_iff_exists.mp hstep
    simp only [stopLoop, hacc0]
    exact ih acc0

/-- C1: for every registry and every order in which its entries are iterated, a `Stop()`
that returns has called `stop()` once on each entry in that order and returns the last
non-zero code those calls returned, 0 when they all returned 0; and `Stop()` returns
whenever every `stop()` does. -/
theorem Stop_returns_last_nonzero {σ : Type} (vt : measurement σ) (s : State σ)
    (order : List (String × Ptr)) (horder : order.Perm s.factory.createFuncs) :
    (∀ rc s1, Stop vt s order = some (rc, s1) →
      ∃ new, s1.events = s.events ++ new ∧
        (stopCalls new).Perm (s.factory.createFuncs.map Prod.snd) ∧
        stopCalls new = order.map Prod.snd ∧
        rc = lastNonZero (stopCodes new) ∧
        ((∀ r ∈ stopCodes new, r = 0) → rc = 0)) ∧
    ((∀ obj, (vt.stop obj).isSome) → (Stop vt s order).isSome) := by
  constructor
  · intro rc s1 h
    unfold Stop at h
    cases hloop : stopLoop vt order (s, 0) with
    | none => rw [hloop] at h; exact absurd h (by simp)
    | some acc1 =>
      rw [hloop] at h
      simp only [Option.map_some', Option.some.injEq, Prod.mk.injEq] at h
      obtain ⟨new, hev, hcalls, hrc⟩ := stopLoop_spec vt order (s, 0) acc1 hloop
      refine ⟨new, ?_, ?_, hcalls, ?_, ?_⟩
      · rw [← h.2]; exact hev
      · rw [hcalls]; exact horder.map Prod.snd
      · rw [← h.1, hrc]; rfl
      · intro hz
        rw [← h.1, hrc]
        unfold keepLast
        have : List.filter (fun r => decide (r ≠ 0)) (stopCodes new) = [] := by
          rw [List.filter_eq_nil_iff]
          intro r hr
          simp [hz r hr]
        rw [this]; rfl
  · intro hret
    unfold Stop
    have := stopLoop_isSome vt hret order (s, 0)
    obtain ⟨acc, hacc⟩ := Option.isSome_iff_exists.mp this
    rw [hacc]; rfl


/-! ## Go maps -/

theorem mapLookup_eq_none_iff (m : List (String × Ptr)) (k : String) :
    mapLookup m k = none ↔ k ∉ mapKeys m := by
  induction m with
  | nil => simp [mapLookup, mapKeys]
  | cons e rest ih =>
    obtain ⟨k', v⟩ := e
    by_cases hk : k' = k
    · simp [mapLookup, mapKeys, hk]
    · have hk' : ¬ k = k' := fun h => hk h.symm
      simp only [mapLookup, hk, if_false, ih, mapKeys, List.map_cons, List.mem_cons, hk', false_or]

theorem mapStore_of_lookup_none (m : List (String × Ptr)) (k : String) (v : Ptr)
    (h : mapLookup m k = none) : mapStore m k v = m ++ [(k, v)] := by
  induction m with
  | nil => rfl
  | cons e rest ih =>
    obtain ⟨k', v'⟩ := e
    by_cases hk : k' = k
    · simp [mapLookup, hk] at h
    · simp only [mapLookup, hk, if_false] at h
      simp [mapStore, hk, ih h]

/-! ## One iteration of the loop of `NewMeasurementFactory` -/

/-- The three ways an iteration of the loop of `NewMeasurementFactory` can go: no
implementation, a name already registered, a new registration. -/
theorem newFactoryStep_cases {σ : Type} (vt : measurement σ) (s : State σ)
    (m : config.Measurement) :
    (newFactoryStep vt s m).measurementMap = s.measurementMap ∧
    (newFactoryStep vt s m).Measurements = s.Measurements ∧
    ((s.measurementMap m.Name = none ∧
        (newFactoryStep vt s m).factory = s.factory ∧
        (newFactoryStep vt s m).events =
          s.events ++ [.log .warn ("Measurement not found: " ++ m.Name)]) ∨
     (∃ f, s.measurementMap m.Name = some f ∧ m.Name ∈ mapKeys s.factory.createFuncs ∧
        (newFactoryStep vt s m).factory = s.factory ∧
        (newFactoryStep vt s m).events =
          s.events ++ [.log .warn ("Measurement already registered: " ++ m.Name)]) ∨
     (∃ f, s.measurementMap m.Name = some f ∧ m.Name ∉ mapKeys s.factory.createFuncs ∧
        (newFactoryStep vt s m).factory.createFuncs = s.factory.createFuncs ++ [(m.Name, f)] ∧
        (newFactoryStep vt s m).events =
          s.events ++ [.setConfig f m, .log .info ("Registered measurement: " ++ m.Name)])) := by
  unfold newFactoryStep
  cases hm : s.measurementMap m.Name with
  | none => simp [State.emit]
  | some f =>
    simp only [false_and, false_or, Option.some.injEq, exists_eq_left', reduceCtorEq]
    unfold register
    cases hl : mapLookup s.factory.createFuncs m.Name with
    | some p0 =>
      have hmem : m.Name ∈ mapKeys s.factory.createFuncs := by
        by_contra hc
        rw [← mapLookup_eq_none_iff] at hc
        rw [hc] at hl
        exact absurd hl (by simp)
      simp [State.emit, hmem]
    | none =>
      have hmem : m.Name ∉ mapKeys s.factory.createFuncs := (mapLookup_eq_none_iff _ _).mp hl
      simp only [State.emit, State.poke, hmem, not_false_eq_true, true_and, false_and, false_or,
        List.append_assoc, List.singleton_append, and_true]
      exact mapStore_of_lookup_none _ _ _ hl

/-- An iteration of the loop of `NewMeasurementFactory` adds no `go` statement. -/
theorem not_goStart_of_step_events (e : Event) (msg1 msg2 : String) (f : Ptr)
    (m : config.Measurement)
    (h : e ∈ [Event.log .warn msg1] ∨ e ∈ [Event.setConfig f m, Event.log .info msg2]) :
    ∀ p, e ≠ .goStart p := by
  intro p hp
  subst hp
  simp at h

/-- The state after the loop of `NewMeasurementFactory` over `ms`, started in `s`. -/
theorem newFactoryLoop_spec {σ : Type} (vt : measurement σ) (ms : List config.Measurement) :
    ∀ s : State σ,
      (ms.foldl (newFactoryStep vt) s).measurementMap = s.measurementMap ∧
      (∀ n, n ∈ mapKeys (ms.foldl (newFactoryStep vt) s).factory.createFuncs ↔
        n ∈ mapKeys s.factory.createFuncs ∨
          ∃ m ∈ ms, m.Name = n ∧ (s.measurementMap n).isSome) ∧
      ((mapKeys s.factory.createFuncs).Nodup →
        (mapKeys (ms.foldl (newFactoryStep vt) s).factory.createFuncs).Nodup) ∧
      (∀ e ∈ (ms.foldl (newFactoryStep vt) s).factory.createFuncs,
        e ∈ s.factory.createFuncs ∨ s.measurementMap e.1 = some e.2) ∧
      ∃ new, (ms.foldl (newFactoryStep vt) s).events = s.events ++ new ∧
        (∀ m ∈ ms, s.measurementMap m.Name = none →
          Event.log .warn ("Measurement not found: " ++ m.Name) ∈ new) ∧
        (∀ e ∈ new, ∀ p, e ≠ .goStart p) ∧
        (∀ p, new.countP (isSetConfigOn p) +
            s.factory.createFuncs.countP (fun e => e.2 = p) =
          (ms.foldl (newFactoryStep vt) s).factory.createFuncs.countP (fun e => e.2 = p)) := by
  induction ms with
  | nil =>
    intro s
    refine ⟨rfl, by simp, fun h => h, fun e he => Or.inl he, [], by simp, by simp, by simp, by simp⟩
  | cons m rest ih =>
    intro s
    simp only [List.foldl_cons]
    obtain ⟨hmm, hkeys, hnd, hent, new1, hev1, hwarn1, hgo1, hcnt1⟩ := ih (newFactoryStep vt s m)
    obtain ⟨smm, -, hcase⟩ := newFactoryStep_cases vt s m
    rw [smm] at hmm hent hwarn1
    have hkeys0 : ∀ n, n ∈ mapKeys (newFactoryStep vt s m).factory.createFuncs ↔
        n ∈ mapKeys s.factory.createFuncs ∨ (m.Name = n ∧ (s.measurementMap n).isSome) := by
      intro n
      rcases hcase with ⟨hnone, hfac, -⟩ | ⟨f, hsome, hmem, hfac, -⟩ | ⟨f, hsome, hmem, hcf, -⟩
      · rw [hfac]
        constructor
        · exact Or.inl
        · rintro (h | ⟨rfl, h⟩)
          · exact h
          · rw [hnone] at h; exact absurd h (by simp)
      · rw [hfac]
        constructor
        · exact Or.inl
        · rintro (h | ⟨rfl, -⟩)
          · exact h
          · exact hmem
      · rw [hcf]
        simp only [mapKeys, List.map_append, List.map_cons, List.map_nil, List.mem_append,
          List.mem_singleton]
        constructor
        · rintro (h | rfl)
          · exact Or.inl h
          · exact Or.inr ⟨rfl, by rw [hsome]; rfl⟩
        · rintro (h | ⟨rfl, -⟩)
          · exact Or.inl h
          · exact Or.inr rfl
    refine ⟨hmm, ?_, ?_, ?_, ?_⟩
    · intro n
      rw [hkeys n, hkeys0 n, smm]
      simp only [List.mem_cons, exists_eq_or_imp]
      tauto
    · intro hnd0
      apply hnd
      rcases hcase with ⟨-, hfac, -⟩ | ⟨f, -, -, hfac, -⟩ | ⟨f, -, hmem, hcf, -⟩
      · rw [hfac]; exact hnd0
      · rw [hfac]; exact hnd0
      · rw [hcf]
        simp only [mapKeys, List.map_append, List.map_cons, List.map_nil]
        rw [List.nodup_append]
        refine ⟨hnd0, List.nodup_singleton _, ?_⟩
        intro a ha hb
        rw [List.mem_singleton] at hb
        subst hb
        exact hmem ha
    · intro e he
      rcases hent e he with h | h
      · rcases hcase with ⟨-, hfac, -⟩ | ⟨f, -, -, hfac, -⟩ | ⟨f, hsome, -, hcf, -⟩
        · rw [hfac] at h; exact Or.inl h
        · rw [hfac] at h; exact Or.inl h
        · rw [hcf, List.mem_append, List.mem_singleton] at h
          rcases h with h | rfl
          · exact Or.inl h
          · exact Or.inr hsome
      · exact Or.inr h
    · rcases hcase with ⟨hnone, hfac, hev⟩ | ⟨f, hsome, -, hfac, hev⟩ | ⟨f, hsome, -, hcf, hev⟩
      · refine ⟨[.log .warn ("Measurement not found: " ++ m.Name)] ++ new1, ?_, ?_, ?_, ?_⟩
        · rw [hev1, hev, List.append_assoc]
        · intro m' hm' hn'
          rcases List.mem_cons.mp hm' with rfl | hm'
          · simp
          · exact List.mem_append_right _ (hwarn1 m' hm' hn')
        · intro e he
          rcases List.mem_append.mp he with h | h
          · exact not_goStart_of_step_events e _ "" 0 m (Or.inl h)
          · exact hgo1 e h
        · intro p
          rw [← hcnt1 p, hfac]
          simp [List.countP_cons, isSetConfigOn]
      · refine ⟨[.log .warn ("Measurement already registered: " ++ m.Name)] ++ new1, ?_, ?_, ?_, ?_⟩
        · rw [hev1, hev, List.append_assoc]
        · intro m' hm' hn'
          rcases List.mem_cons.mp hm' with rfl | hm'
          · rw [hsome] at hn'; exact absurd hn' (by simp)
          · exact List.mem_append_right _ (hwarn1 m' hm' hn')
        · intro e he
          rcases List.mem_append.mp he with h | h
          · exact not_goStart_of_step_events e _ "" 0 m (Or.inl h)
          · exact hgo1 e h
        · intro p
          rw [← hcnt1 p, hfac]
          simp [List.countP_cons, isSetConfigOn]
      · refine ⟨[.setConfig f m, .log .info ("Registered measurement: " ++ m.Name)] ++ new1,
          ?_, ?_, ?_, ?_⟩
        · rw [hev1, hev, List.append_assoc]
        · intro m' hm' hn'
          rcases List.mem_cons.mp hm' with rfl | hm'
          · rw [hsome] at hn'; exact absurd hn' (by simp)
          · exact List.mem_append_right _ (hwarn1 m' hm' hn')
        · intro e he
          rcases List.mem_append.mp he with h | h
          · exact not_goStart_of_step_events e "" _ f m (Or.inr h)
          · exact hgo1 e h
        · intro p
          rw [← hcnt1 p, hcf]
          by_cases hp : f = p
          · simp [List.countP_cons, List.countP_append, isSetConfigOn, hp]; omega
          · simp [List.countP_cons, List.countP_append, isSetConfigOn, hp]


/-! ## The registry -/

/-- C2: for every factory state and every measurement whose name is already a key of the
registry, `register` leaves the factory (the registry with it) and every plugin object
unchanged and adds one warning to the trace and nothing else: `setConfig` is not called,
and the name still maps to the instance stored first. -/
theorem register_existing_name_unchanged {σ : Type} (vt : measurement σ) (s : State σ)
    (measure : config.Measurement) (measurementFunc : Ptr)
    (hkey : measure.Name ∈ mapKeys s.factory.createFuncs) :
    (register vt s measure measurementFunc).factory = s.factory ∧
    (register vt s measure measurementFunc).heap = s.heap ∧
    (register vt s measure measurementFunc).events =
      s.events ++ [.log .warn ("Measurement already registered: " ++ measure.Name)] ∧
    (∀ p, (register vt s measure measurementFunc).events.countP (isSetConfigOn p) =
      s.events.countP (isSetConfigOn p)) ∧
    mapLookup (register vt s measure measurementFunc).factory.createFuncs measure.Name =
      mapLookup s.factory.createFuncs measure.Name := by
  have hreg : register vt s measure measurementFunc =
      s.emit (.log .warn ("Measurement already registered: " ++ measure.Name)) := by
    unfold register
    cases hl : mapLookup s.factory.createFuncs measure.Name with
    | none => exact absurd hkey ((mapLookup_eq_none_iff _ _).mp hl)
    | some p0 => rfl
  rw [hreg]
  refine ⟨rfl, rfl, rfl, ?_, rfl⟩
  intro p
  simp [State.emit, List.countP_append, List.countP_cons, isSetConfigOn]

/-- C3: when the client set can be built, `NewMeasurementFactory` returns; each configured
name without an implementation in `measurementMap` has its warning among the lines added
to the trace and is not a key of the registry; the keys of the registry are exactly the
configured names that have an implementation, each once. -/
theorem NewMeasurementFactory_registry_keys {σ : Type} (vt : measurement σ)
    (newForConfig : RestConfig → Option Clientset) (s : State σ) (restConfig : RestConfig)
    (uuid : String) (indexer : Indexer) (clientSet : Clientset)
    (hclient : newForConfig restConfig = some clientSet) :
    ∃ s1, NewMeasurementFactory vt newForConfig s restConfig uuid indexer = some s1 ∧
      (∃ new, s1.events = s.events ++ new ∧
        ∀ m ∈ s.Measurements, s.measurementMap m.Name = none →
          Event.log .warn ("Measurement not found: " ++ m.Name) ∈ new ∧
          m.Name ∉ mapKeys s1.factory.createFuncs) ∧
      (∀ n, n ∈ mapKeys s1.factory.createFuncs ↔
        ∃ m ∈ s.Measurements, m.Name = n ∧ (s.measurementMap n).isSome) ∧
      (mapKeys s1.factory.createFuncs).Nodup := by
  unfold NewMeasurementFactory
  simp only [hclient]
  refine ⟨_, rfl, ?_⟩
  obtain ⟨-, hkeys, hnd, -, new, hev, hwarn, -, -⟩ := newFactoryLoop_spec vt s.Measurements
    ({ s.emit (.log .info "📈 Creating measurement factory") with factory :=
      { jobConfig := none
        clientSet := some clientSet
        restConfig := some restConfig
        createFuncs := []
        indexer := some indexer
        uuid := uuid } } : State σ)
  simp only [State.emit, mapKeys, List.map_nil, List.not_mem_nil, false_or, List.nodup_nil,
    true_implies] at hkeys hnd hev hwarn ⊢
  refine ⟨⟨Event.log .info "📈 Creating measurement factory" :: new, by rw [hev]; simp, ?_⟩,
    hkeys, hnd⟩
  intro m hm hnone
  refine ⟨List.mem_cons_of_mem _ (hwarn m hm hnone), ?_⟩
  intro hmem
  obtain ⟨m', -, hname, hsome⟩ := (hkeys m.Name).mp hmem
  rw [hnone] at hsome
  exact absurd hsome (by simp)

/-- A list without duplicates whose elements are all equal has at most one element. -/
theorem length_le_one_of_nodup_of_all_eq {α : Type} (l : List α) (a : α) (hnd : l.Nodup)
    (hall : ∀ x ∈ l, x = a) : l.length ≤ 1 := by
  match l, hnd, hall with
  | [], _, _ => simp
  | [_], _, _ => simp
  | x :: y :: rest, hnd, hall =>
    have hx := hall x (by simp)
    have hy := hall y (by simp)
    rw [List.nodup_cons] at hnd
    exact absurd (by rw [hx, hy]; simp) hnd.1

/-- The trace of `Start`: one `go` statement for each entry, in iteration order. -/
theorem Start_events {σ : Type} (order : List (String × Ptr)) :
    ∀ s : State σ, (Start s order).events = s.events ++ order.map (fun e => Event.goStart e.2) := by
  induction order with
  | nil => intro s; simp [Start]
  | cons e rest ih =>
    intro s
    have := ih (s.emit (.goStart e.2))
    simp only [Start, List.foldl_cons] at this ⊢
    rw [this]
    simp [State.emit]

/-- C4: after `NewMeasurementFactory` (which returns when the client set can be built) and
then `Start`, whatever the iteration order, the trace of the two calls has, before each
`go measurement.start()` on an instance, exactly one `setConfig` call on that instance, and
none after it; distinct names of `measurementMap` hold distinct instances. -/
theorem setConfig_once_before_start {σ : Type} (vt : measurement σ)
    (newForConfig : RestConfig → Option Clientset) (s : State σ) (restConfig : RestConfig)
    (uuid : String) (indexer : Indexer) (clientSet : Clientset)
    (hclient : newForConfig restConfig = some clientSet)
    (hdistinct : ∀ n1 n2 p, s.measurementMap n1 = some p → s.measurementMap n2 = some p →
      n1 = n2) :
    ∃ s1, NewMeasurementFactory vt newForConfig s restConfig uuid indexer = some s1 ∧
      ∀ order : List (String × Ptr), order.Perm s1.factory.createFuncs →
        ∃ new, (Start s1 order).events = s.events ++ new ∧
          (∀ e ∈ s1.factory.createFuncs, Event.goStart e.2 ∈ new) ∧
          ∀ p before after, new = before ++ Event.goStart p :: after →
            before.countP (isSetConfigOn p) = 1 ∧ after.countP (isSetConfigOn p) = 0 := by
  unfold NewMeasurementFactory
  simp only [hclient]
  refine ⟨_, rfl, ?_⟩
  obtain ⟨-, hkeys, hnd, hent, new, hev, -, hgo, hcnt⟩ := newFactoryLoop_spec vt s.Measurements
    ({ s.emit (.log .info "📈 Creating measurement factory") with factory :=
      { jobConfig := none
        clientSet := some clientSet
        restConfig := some restConfig
        createFuncs := []
        indexer := some indexer
        uuid := uuid } } : State σ)
  simp only [State.emit, mapKeys, List.map_nil, List.not_mem_nil, false_or, List.nodup_nil,
    true_implies, List.countP_nil, add_zero] at hkeys hnd hev hent hcnt ⊢
  generalize List.foldl (newFactoryStep vt) _ s.Measurements = s1 at hkeys hnd hev hent hcnt ⊢
  intro order horder
  set starts := order.map (fun e => Event.goStart e.2) with hstarts
  have hnoSet : ∀ l : List (String × Ptr), ∀ p,
      (l.map (fun e => Event.goStart e.2)).countP (isSetConfigOn p) = 0 := by
    intro l p
    rw [List.countP_eq_zero]
    intro e he
    obtain ⟨x, -, rfl⟩ := List.mem_map.mp he
    simp [isSetConfigOn]
  refine ⟨(Event.log .info "📈 Creating measurement factory" :: new) ++ starts, ?_, ?_, ?_⟩
  · rw [Start_events, hev]; simp
  · intro e he
    apply List.mem_append_right
    exact List.mem_map.mpr ⟨e, horder.mem_iff.mpr he, rfl⟩
  · intro p before after hsplit
    -- the instance started is the value of an entry of the registry
    have hpstart : Event.goStart p ∈ starts := by
      have hmem : Event.goStart p ∈
          (Event.log .info "📈 Creating measurement factory" :: new) ++ starts := by
        rw [hsplit]; simp
      rcases List.mem_append.mp hmem with h | h
      · rcases List.mem_cons.mp h with h | h
        · exact absurd h (by simp)
        · exact absurd rfl (hgo _ h p)
      · exact h
    obtain ⟨e0, he0, hp0⟩ := List.mem_map.mp hpstart
    have he0cf : e0 ∈ s1.factory.createFuncs := horder.mem_iff.mp he0
    have hp0' : e0.2 = p := by simpa using hp0
    -- exactly one entry of the registry holds the instance
    have hone : s1.factory.createFuncs.countP (fun e => e.2 = p) = 1 := by
      apply le_antisymm
      · rw [List.countP_eq_length_filter]
        have hsub : (s1.factory.createFuncs.filter (fun e => e.2 = p)).Sublist
            s1.factory.createFuncs := List.filter_sublist _
        have hndf : ((s1.factory.createFuncs.filter (fun e => e.2 = p)).map Prod.fst).Nodup :=
          hnd.sublist (hsub.map Prod.fst)
        have hall : ∀ k ∈ (s1.factory.createFuncs.filter (fun e => e.2 = p)).map Prod.fst,
            k = e0.1 := by
          intro k hk
          obtain ⟨e, he, rfl⟩ := List.mem_map.mp hk
          rw [List.mem_filter] at he
          have hep : e.2 = p := by simpa using he.2
          have h1 := hent e he.1
          have h2 := hent e0 he0cf
          rw [hep] at h1
          rw [hp0'] at h2
          exact hdistinct _ _ p h1 h2
        have := length_le_one_of_nodup_of_all_eq _ e0.1 hndf hall
        simpa using this
      · exact List.countP_pos_iff.mpr ⟨e0, he0cf, by simpa using hp0'⟩
    have hnew : new.countP (isSetConfigOn p) = 1 := by rw [hcnt p, hone]
    -- the split point lies in the part written by `Start`
    have hsplit2 : ∃ mid, before = (Event.log .info "📈 Creating measurement factory" :: new) ++ mid ∧
        starts = mid ++ Event.goStart p :: after := by
      rcases List.append_eq_append_iff.mp hsplit with ⟨a, ha, hb⟩ | ⟨c, ha, hb⟩
      · exact ⟨a, ha, hb⟩
      · cases c with
        | nil => exact ⟨[], by simpa using ha.symm, by simpa using hb.symm⟩
        | cons x c =>
          simp only [List.cons_append, List.cons.injEq] at hb
          have hx : Event.goStart p ∈
              (Event.log .info "📈 Creating measurement factory" :: new) := by
            rw [ha, ← hb.1]; simp
          rcases List.mem_cons.mp hx with h | h
          · exact absurd h (by simp)
          · exact absurd rfl (hgo _ h p)
    obtain ⟨mid, hbefore, hstartsplit⟩ := hsplit2
    have hz := hnoSet order p
    rw [← hstarts, hstartsplit, List.countP_append, List.countP_cons] at hz
    constructor
    · rw [hbefore, List.countP_append, List.countP_cons, hnew]
      simp only [isSetConfigOn, Bool.false_eq_true, if_false, add_zero]
      omega
    · omega


/-! ## The claims at concrete inputs, the command and the configuration -/

/-- C1 at a registry of three plugins holding the codes 3, 0 and 5, iterated in the order
c, a, b: `Stop()` returns 3, the last non-zero code in that order. -/
theorem Stop_returns_last_nonzero_witness :
    [("c", 2), ("a", 0), ("b", 1)].Perm threePlugins.factory.createFuncs ∧
    (Stop fixedCodeMethods threePlugins [("c", 2), ("a", 0), ("b", 1)]).map Prod.fst = some 3 ∧
    (∀ rc s1, Stop fixedCodeMethods threePlugins [("c", 2), ("a", 0), ("b", 1)] = some (rc, s1) →
      ∃ new, s1.events = threePlugins.events ++ new ∧
        (stopCalls new).Perm (threePlugins.factory.createFuncs.map Prod.snd) ∧
        stopCalls new = [("c", 2), ("a", 0), ("b", 1)].map Prod.snd ∧
        rc = lastNonZero (stopCodes new) ∧
        ((∀ r ∈ stopCodes new, r = 0) → rc = 0)) :=
  ⟨by decide, by decide,
    (Stop_returns_last_nonzero fixedCodeMethods threePlugins [("c", 2), ("a", 0), ("b", 1)]
      (by decide)).1⟩

/-- C2 at a registry that holds `pprof` configured with directory `first`: registering
`pprof` again with directory `second` changes nothing but the log. -/
theorem register_existing_name_unchanged_witness :
    "pprof" ∈ mapKeys registeredState.factory.createFuncs ∧
    (register pprofMethods registeredState (entry "pprof" "second") 0).factory =
      registeredState.factory ∧
    ((register pprofMethods registeredState (entry "pprof" "second") 0).heap 0).directory =
      "first" ∧
    (register pprofMethods registeredState (entry "pprof" "second") 0).events =
      registeredState.events ++ [.log .warn "Measurement already registered: pprof"] :=
  have h := register_existing_name_unchanged pprofMethods registeredState
    (entry "pprof" "second") 0 (by decide)
  ⟨by decide, h.1, by rw [h.2.1]; decide, h.2.2.1⟩

/-- C3 at a configuration naming `pprof`, `podLatency` and `pprof` again when only `pprof`
has an implementation. -/
theorem NewMeasurementFactory_registry_keys_witness :
    acceptConfig { id := 7 } = some { id := 7 } ∧
    ∃ s1, NewMeasurementFactory pprofMethods acceptConfig sampleState { id := 7 } "uuid"
        { id := 1 } = some s1 ∧
      (∃ new, s1.events = sampleState.events ++ new ∧
        ∀ m ∈ sampleState.Measurements, sampleState.measurementMap m.Name = none →
          Event.log .warn ("Measurement not found: " ++ m.Name) ∈ new ∧
          m.Name ∉ mapKeys s1.factory.createFuncs) ∧
      (∀ n, n ∈ mapKeys s1.factory.createFuncs ↔
        ∃ m ∈ sampleState.Measurements, m.Name = n ∧ (sampleState.measurementMap n).isSome) ∧
      (mapKeys s1.factory.createFuncs).Nodup :=
  ⟨rfl, NewMeasurementFactory_registry_keys pprofMethods acceptConfig sampleState { id := 7 }
    "uuid" { id := 1 } { id := 7 } rfl⟩

/-- The names of `initMeasurementMap` hold distinct instances. -/
theorem initMeasurementMap_distinct (n1 n2 : String) (p : Ptr)
    (h1 : initMeasurementMap n1 = some p) (h2 : initMeasurementMap n2 = some p) : n1 = n2 := by
  unfold initMeasurementMap at h1 h2
  split at h1
  · split at h2
    · rename_i a b; rw [a, b]
    · exact absurd h2 (by simp)
  · exact absurd h1 (by simp)

/-- C4 at a configuration naming `pprof`, `podLatency` and `pprof` again. -/
theorem setConfig_once_before_start_witness :
    acceptConfig { id := 7 } = some { id := 7 } ∧
    ∃ s1, NewMeasurementFactory pprofMethods acceptConfig sampleState { id := 7 } "uuid"
        { id := 1 } = some s1 ∧
      ∀ order : List (String × Ptr), order.Perm s1.factory.createFuncs →
        ∃ new, (Start s1 order).events = sampleState.events ++ new ∧
          (∀ e ∈ s1.factory.createFuncs, Event.goStart e.2 ∈ new) ∧
          ∀ p before after, new = before ++ Event.goStart p :: after →
            before.countP (isSetConfigOn p) = 1 ∧ after.countP (isSetConfigOn p) = 0 :=
  ⟨rfl, setConfig_once_before_start pprofMethods acceptConfig sampleState { id := 7 } "uuid"
    { id := 1 } { id := 7 } rfl initMeasurementMap_distinct⟩

/-- The command a goroutine assigns for a target with a bearer token differs from the one
it assigns for the same target without, while the artifact name, the artifact path and the
options passed to `Stream` are the same. -/
theorem buildCommand_token (target : config.PProftarget) (pod : Pod)
    (ts : Int) (directory token : String) (htoken : token ≠ "") :
    buildCommand { target with BearerToken := token } ≠
      buildCommand { target with BearerToken := "" } ∧
    pprofFile { target with BearerToken := token } pod ts =
      pprofFile { target with BearerToken := "" } pod ts ∧
    artifactPath directory { target with BearerToken := token } pod ts =
      artifactPath directory { target with BearerToken := "" } pod ts ∧
    streamOptions (artifactPath directory { target with BearerToken := token } pod ts) =
      streamOptions (artifactPath directory { target with BearerToken := "" } pod ts) := by
  refine ⟨?_, rfl, rfl, rfl⟩
  unfold buildCommand
  simp only [ne_eq, htoken, not_false_eq_true, if_true, not_true_eq_false, if_false]
  intro h
  have := congrArg List.length h
  simp at this

/-- C10: for every configuration `cfg`, after `setConfig(cfg)` the directory of the plugin
is `cfg.PProfDirectory` when that is not empty and `pprof` otherwise, and the stored
configuration is `cfg`. -/
theorem setConfig_directory_and_config (p : pprof) (cfg : config.Measurement) :
    (p.setConfig cfg).directory =
      (if cfg.PProfDirectory ≠ "" then cfg.PProfDirectory else "pprof") ∧
    (p.setConfig cfg).config = cfg ∧
    (p.setConfig cfg).stopChannel = p.stopChannel := by
  unfold pprof.setConfig
  by_cases h : cfg.PProfDirectory = "" <;> simp [h]


/-! ## The decimal rendering of the timestamp -/

theorem digitChar_isDigit (m : Nat) (hm : m < 10) :
    (Nat.digitChar m).isDigit = true ∧ (Nat.digitChar m).toNat - 48 = m := by
  interval_cases m <;> decide

theorem decValue_append_singleton (ds : List Char) (c : Char) :
    decValue (ds ++ [c]) = decValue ds * 10 + (c.toNat - 48) := by
  simp [decValue, List.foldl_append]

/-- The digits `Nat.toDigitsCore` puts in front of what it was given: a run of decimal
digits that stands for the number. -/
theorem toDigitsCore_digits : ∀ (gas m : Nat) (given : List Char), m < gas →
    ∃ run : List Char, (∀ c ∈ run, c.isDigit = true) ∧ decValue run = m ∧
      run ++ given = Nat.toDigitsCore 10 gas m given := by
  intro gas
  induction gas with
  | zero => intro m given h; omega
  | succ gas ih =>
    intro m given hm
    unfold Nat.toDigitsCore
    simp only
    obtain ⟨hdig, hval⟩ := digitChar_isDigit (m % 10) (Nat.mod_lt _ (by omega))
    by_cases h10 : m / 10 = 0
    · rw [if_pos h10]
      refine ⟨[Nat.digitChar (m % 10)], ?_, ?_, rfl⟩
      · intro c hc
        rw [List.mem_singleton] at hc
        rw [hc]; exact hdig
      · have := decValue_append_singleton [] (Nat.digitChar (m % 10))
        simp only [List.nil_append] at this
        rw [this, hval]
        simp only [decValue, List.foldl_nil]
        omega
    · rw [if_neg h10]
      obtain ⟨run, hall, hv, hrun⟩ := ih (m / 10) (Nat.digitChar (m % 10) :: given) (by omega)
      refine ⟨run ++ [Nat.digitChar (m % 10)], ?_, ?_, ?_⟩
      · intro c hc
        rcases List.mem_append.mp hc with h | h
        · exact hall c h
        · rw [List.mem_singleton] at h
          rw [h]; exact hdig
      · rw [decValue_append_singleton, hv, hval]
        omega
      · rw [← hrun]; simp

/-- The characters of `toString n` are decimal digits and stand for `n`. -/
theorem toString_nat_digits (n : Nat) :
    (∀ c ∈ (toString n).data, c.isDigit = true) ∧ decValue (toString n).data = n := by
  obtain ⟨run, hall, hv, hrun⟩ := toDigitsCore_digits (n + 1) n [] (by omega)
  have hdata : (toString n).data = run := by
    show (Nat.repr n).data = run
    unfold Nat.repr Nat.toDigits
    rw [← hrun]
    simp [List.asString]
  rw [hdata]
  exact ⟨hall, hv⟩

/-- The rendering of a timestamp that is not negative. -/
theorem toString_int_of_nonneg (ts : Int) (h : 0 ≤ ts) :
    ∃ n : Nat, ts = n ∧ toString ts = toString n := by
  obtain ⟨n, rfl⟩ := Int.eq_ofNat_of_zero_le h
  exact ⟨n, rfl, rfl⟩

/-! ## Splitting at a separator -/

/-- Two lists cut at the first occurrence of `a` agree part by part. -/
theorem split_at_first {α : Type} (a : α) : ∀ (l1 l2 r1 r2 : List α), a ∉ l1 → a ∉ l2 →
    l1 ++ a :: r1 = l2 ++ a :: r2 → l1 = l2 ∧ r1 = r2 := by
  intro l1
  induction l1 with
  | nil =>
    intro l2 r1 r2 _ h2 h
    cases l2 with
    | nil => simpa using h
    | cons x l2 =>
      simp only [List.nil_append, List.cons_append, List.cons.injEq] at h
      exact absurd (by rw [← h.1]; simp) h2
  | cons y l1 ih =>
    intro l2 r1 r2 h1 h2 h
    cases l2 with
    | nil =>
      simp only [List.nil_append, List.cons_append, List.cons.injEq] at h
      exact absurd (by rw [h.1]; simp) h1
    | cons x l2 =>
      simp only [List.cons_append, List.cons.injEq] at h
      have h1' : a ∉ l1 := fun hc => h1 (List.mem_cons_of_mem _ hc)
      have h2' : a ∉ l2 := fun hc => h2 (List.mem_cons_of_mem _ hc)
      obtain ⟨e1, e2⟩ := ih l2 r1 r2 h1' h2' h.2
      exact ⟨by rw [h.1, e1], e2⟩

/-- Two lists cut at the last occurrence of `a` agree part by part. -/
theorem split_at_last {α : Type} (a : α) (l1 l2 r1 r2 : List α) (h1 : a ∉ r1) (h2 : a ∉ r2)
    (h : l1 ++ a :: r1 = l2 ++ a :: r2) : l1 = l2 ∧ r1 = r2 := by
  have hrev := congrArg List.reverse h
  simp only [List.reverse_append, List.reverse_cons, List.append_assoc, List.singleton_append]
    at hrev
  obtain ⟨e1, e2⟩ := split_at_first a r1.reverse r2.reverse l1.reverse l2.reverse
    (by simpa using h1) (by simpa using h2) hrev
  exact ⟨List.reverse_injective e2, List.reverse_injective e1⟩

end measurements

namespace path

/-! ## `Clean` on a path that ends in an ordinary element -/

theorem atEnd_append_slash (l r : List Char) : atEnd (l ++ '/' :: r) = atEnd l := by
  cases l with
  | nil => rfl
  | cons c l => rfl

theorem head?_append_slash (l r : List Char) :
    ((l ++ '/' :: r).head? = some '.') ↔ (l.head? = some '.') := by
  cases l with
  | nil => simp
  | cons c l => simp

theorem atEnd_tail_append_slash (l r : List Char) (h : l.head? = some '.') :
    atEnd (l ++ '/' :: r).tail = atEnd l.tail := by
  cases l with
  | nil => simp at h
  | cons c l => exact atEnd_append_slash l r

theorem cleanLoop_skip_cons (rooted : Bool) (c : Char) (rest out : List Char) (dotdot : Nat) :
    cleanLoop rooted (c :: rest) .skip out dotdot = cleanLoop rooted rest .start out dotdot := rfl

theorem cleanLoop_copy_cons (rooted : Bool) (c : Char) (rest out : List Char) (dotdot : Nat) :
    cleanLoop rooted (c :: rest) .copy out dotdot =
      if c = '/' then cleanLoop rooted rest .start out dotdot
      else cleanLoop rooted rest .copy (c :: out) dotdot := rfl

theorem cleanLoop_start_cons (rooted : Bool) (c : Char) (rest out : List Char) (dotdot : Nat) :
    cleanLoop rooted (c :: rest) .start out dotdot =
      if c = '/' then cleanLoop rooted rest .start out dotdot
      else if c = '.' ∧ atEnd rest = true then cleanLoop rooted rest .start out dotdot
      else if c = '.' ∧ rest.head? = some '.' ∧ atEnd rest.tail = true then
        cleanLoop rooted rest .skip (dotdotCase rooted out dotdot).1 (dotdotCase rooted out dotdot).2
      else
        cleanLoop rooted rest .copy
          (c :: (if (rooted = true ∧ out.length ≠ 1) ∨ (¬ rooted = true ∧ out.length ≠ 0)
            then '/' :: out else out)) dotdot := rfl

/-- The loop of `Clean` reaches the slash that ends the prefix `d` at the start of an
element, in a state that does not depend on what follows the slash. -/
theorem cleanLoop_upto_slash (rooted : Bool) (d : List Char) :
    ∀ (mode : Mode) (out : List Char) (dotdot : Nat), ∃ out1 dotdot1, ∀ r : List Char,
      cleanLoop rooted (d ++ '/' :: r) mode out dotdot = cleanLoop rooted r .start out1 dotdot1 := by
  induction d with
  | nil =>
    intro mode out dotdot
    refine ⟨out, dotdot, fun r => ?_⟩
    cases mode
    · rw [List.nil_append, cleanLoop_start_cons, if_pos rfl]
    · rw [List.nil_append, cleanLoop_copy_cons, if_pos rfl]
    · rw [List.nil_append, cleanLoop_skip_cons]
  | cons c d ih =>
    intro mode out dotdot
    cases mode with
    | skip =>
      obtain ⟨o, k, h⟩ := ih .start out dotdot
      exact ⟨o, k, fun r => by rw [List.cons_append, cleanLoop_skip_cons]; exact h r⟩
    | copy =>
      by_cases hc : c = '/'
      · obtain ⟨o, k, h⟩ := ih .start out dotdot
        exact ⟨o, k, fun r => by rw [List.cons_append, cleanLoop_copy_cons, if_pos hc]; exact h r⟩
      · obtain ⟨o, k, h⟩ := ih .copy (c :: out) dotdot
        exact ⟨o, k, fun r => by rw [List.cons_append, cleanLoop_copy_cons, if_neg hc]; exact h r⟩
    | start =>
      by_cases hc : c = '/'
      · obtain ⟨o, k, h⟩ := ih .start out dotdot
        exact ⟨o, k, fun r => by rw [List.cons_append, cleanLoop_start_cons, if_pos hc]; exact h r⟩
      · by_cases h2 : c = '.' ∧ atEnd d = true
        · obtain ⟨o, k, h⟩ := ih .start out dotdot
          refine ⟨o, k, fun r => ?_⟩
          have h2' : c = '.' ∧ atEnd (d ++ '/' :: r) = true := by
            rw [atEnd_append_slash]; exact h2
          rw [List.cons_append, cleanLoop_start_cons, if_neg hc, if_pos h2']
          exact h r
        · by_cases h3 : c = '.' ∧ d.head? = some '.' ∧ atEnd d.tail = true
          · obtain ⟨o, k, h⟩ := ih .skip (dotdotCase rooted out dotdot).1
              (dotdotCase rooted out dotdot).2
            refine ⟨o, k, fun r => ?_⟩
            have h2' : ¬ (c = '.' ∧ atEnd (d ++ '/' :: r) = true) := by
              rw [atEnd_append_slash]; exact h2
            have h3' : c = '.' ∧ (d ++ '/' :: r).head? = some '.' ∧
                atEnd (d ++ '/' :: r).tail = true :=
              ⟨h3.1, (head?_append_slash d r).mpr h3.2.1, by
                rw [atEnd_tail_append_slash d r h3.2.1]; exact h3.2.2⟩
            rw [List.cons_append, cleanLoop_start_cons, if_neg hc, if_neg h2', if_pos h3']
            exact h r
          · obtain ⟨o, k, h⟩ := ih .copy
              (c :: (if (rooted = true ∧ out.length ≠ 1) ∨ (¬ rooted = true ∧ out.length ≠ 0)
                then '/' :: out else out)) dotdot
            refine ⟨o, k, fun r => ?_⟩
            have h2' : ¬ (c = '.' ∧ atEnd (d ++ '/' :: r) = true) := by
              rw [atEnd_append_slash]; exact h2
            have h3' : ¬ (c = '.' ∧ (d ++ '/' :: r).head? = some '.' ∧
                atEnd (d ++ '/' :: r).tail = true) := by
              rintro ⟨a, b, e⟩
              have b' := (head?_append_slash d r).mp b
              rw [atEnd_tail_append_slash d r b'] at e
              exact h3 ⟨a, b', e⟩
            rw [List.cons_append, cleanLoop_start_cons, if_neg hc, if_neg h2', if_neg h3']
            exact h r

/-- The copy loop of `Clean` on an element without a slash. -/
theorem cleanLoop_copy (rooted : Bool) (f : List Char) (hf : '/' ∉ f) :
    ∀ (out : List Char) (dotdot : Nat),
      cleanLoop rooted f .copy out dotdot = f.reverse ++ out := by
  induction f with
  | nil => intro out dotdot; simp [cleanLoop]
  | cons c f ih =>
    intro out dotdot
    have hc : c ≠ '/' := fun h => hf (by rw [h]; simp)
    have hf' : '/' ∉ f := fun h => hf (List.mem_cons_of_mem _ h)
    rw [cleanLoop_copy_cons, if_neg hc, ih hf']
    simp

theorem atEnd_of_no_slash (f : List Char) (hf : '/' ∉ f) (h : atEnd f = true) : f = [] := by
  cases f with
  | nil => rfl
  | cons c f =>
    simp only [atEnd, beq_iff_eq] at h
    exact absurd (by rw [h]; simp) hf

/-- The loop of `Clean` on a last element that is ordinary: the element is copied behind a
separator that depends on the state only. -/
theorem cleanLoop_ordinary (rooted : Bool) (f : List Char) (hf : ordinary f)
    (out : List Char) (dotdot : Nat) :
    cleanLoop rooted f .start out dotdot = f.reverse ++
      (if (rooted = true ∧ out.length ≠ 1) ∨ (¬ rooted = true ∧ out.length ≠ 0)
        then '/' :: out else out) := by
  obtain ⟨hne, hslash, hdot, hdotdot⟩ := hf
  cases f with
  | nil => exact absurd rfl hne
  | cons c f =>
    have hc : c ≠ '/' := fun h => hslash (by rw [h]; simp)
    have hf' : '/' ∉ f := fun h => hslash (List.mem_cons_of_mem _ h)
    have h2 : ¬ (c = '.' ∧ atEnd f = true) := by
      rintro ⟨a, b⟩
      have := atEnd_of_no_slash f hf' b
      exact hdot (by rw [a, this])
    have h3 : ¬ (c = '.' ∧ f.head? = some '.' ∧ atEnd f.tail = true) := by
      rintro ⟨a, b, e⟩
      cases f with
      | nil => simp at b
      | cons x f =>
        simp only [List.head?_cons, Option.some.injEq] at b
        have hf2 : '/' ∉ f := fun h => hf' (List.mem_cons_of_mem _ h)
        have := atEnd_of_no_slash f hf2 e
        exact hdotdot (by rw [a, b, this])
    rw [cleanLoop_start_cons, if_neg hc, if_neg h2, if_neg h3, cleanLoop_copy rooted f hf']
    simp

/-- The end of `Clean` when the loop has copied an ordinary last element. -/
theorem cleanChars_finish (f x : List Char) (hf : f ≠ []) :
    (if (f.reverse ++ x).length = 0 then ['.'] else (f.reverse ++ x).reverse) =
      x.reverse ++ f := by
  have hlen : (f.reverse ++ x).length ≠ 0 := by
    have := List.length_pos.mpr hf
    simp only [List.length_append, List.length_reverse]
    omega
  rw [if_neg hlen]
  simp

/-- `Clean` of an ordinary element alone. -/
theorem cleanChars_ordinary (f : List Char) (hf : ordinary f) : cleanChars f = f := by
  obtain ⟨c, f', rfl⟩ := List.exists_cons_of_ne_nil hf.1
  have hc : (c == '/') = false := by
    have : c ≠ '/' := fun h => hf.2.1 (by rw [h]; simp)
    simpa using this
  have hloop := cleanLoop_ordinary false (c :: f') hf [] 0
  have hsep : (if (false = true ∧ ([] : List Char).length ≠ 1) ∨
      (¬ false = true ∧ ([] : List Char).length ≠ 0) then ['/'] else []) = ([] : List Char) := by
    simp
  rw [hsep] at hloop
  show (if (if (c == '/') = true then cleanLoop true f' .start ['/'] 1
      else cleanLoop false (c :: f') .start [] 0).length = 0 then ['.']
    else (if (c == '/') = true then cleanLoop true f' .start ['/'] 1
      else cleanLoop false (c :: f') .start [] 0).reverse) = c :: f'
  rw [hc]
  simp only [Bool.false_eq_true, if_false]
  rw [hloop, cleanChars_finish (c :: f') [] hf.1]
  rfl

/-- `Clean` of a path whose last element is ordinary: the element behind a prefix that
depends on the elements before it only. -/
theorem cleanChars_ordinary_last (d : List Char) :
    ∃ base : List Char, ∀ f : List Char, ordinary f → cleanChars (d ++ '/' :: f) = base ++ f := by
  cases d with
  | nil =>
    refine ⟨(if (true = true ∧ ['/'].length ≠ 1) ∨ (¬ true = true ∧ ['/'].length ≠ 0)
      then '/' :: ['/'] else ['/']).reverse, fun f hf => ?_⟩
    have hloop := cleanLoop_ordinary true f hf ['/'] 1
    show (if (cleanLoop true f .start ['/'] 1).length = 0 then ['.']
      else (cleanLoop true f .start ['/'] 1).reverse) = _
    rw [hloop, cleanChars_finish f _ hf.1]
  | cons c d =>
    by_cases hc : c = '/'
    · obtain ⟨o, k, h⟩ := cleanLoop_upto_slash true d .start ['/'] 1
      refine ⟨(if (true = true ∧ o.length ≠ 1) ∨ (¬ true = true ∧ o.length ≠ 0)
        then '/' :: o else o).reverse, fun f hf => ?_⟩
      have hloop := cleanLoop_ordinary true f hf o k
      have hcb : (c == '/') = true := by simpa using hc
      show (if (if (c == '/') = true then cleanLoop true (d ++ '/' :: f) .start ['/'] 1
          else cleanLoop false (c :: (d ++ '/' :: f)) .start [] 0).length = 0 then ['.']
        else (if (c == '/') = true then cleanLoop true (d ++ '/' :: f) .start ['/'] 1
          else cleanLoop false (c :: (d ++ '/' :: f)) .start [] 0).reverse) = _
      rw [hcb]
      simp only [if_true]
      rw [h f, hloop, cleanChars_finish f _ hf.1]
      simp
    · obtain ⟨o, k, h⟩ := cleanLoop_upto_slash false (c :: d) .start [] 0
      refine ⟨(if (false = true ∧ o.length ≠ 1) ∨ (¬ false = true ∧ o.length ≠ 0)
        then '/' :: o else o).reverse, fun f hf => ?_⟩
      have hloop := cleanLoop_ordinary false f hf o k
      have hcb : (c == '/') = false := by simpa using hc
      show (if (if (c == '/') = true then cleanLoop true (d ++ '/' :: f) .start ['/'] 1
          else cleanLoop false (c :: (d ++ '/' :: f)) .start [] 0).length = 0 then ['.']
        else (if (c == '/') = true then cleanLoop true (d ++ '/' :: f) .start ['/'] 1
          else cleanLoop false (c :: (d ++ '/' :: f)) .start [] 0).reverse) = _
      rw [hcb]
      simp only [Bool.false_eq_true, if_false]
      have h' := h f
      rw [List.cons_append] at h'
      rw [h', hloop, cleanChars_finish f _ hf.1]
      simp

/-- The buffer `Join` cleans for two elements when the second is not empty. -/
theorem joinBuf_pair (d f : List Char) (hf : f ≠ []) :
    joinBuf [d, f] [] = if d = [] then f else d ++ '/' :: f := by
  obtain ⟨x, f', rfl⟩ := List.exists_cons_of_ne_nil hf
  cases d with
  | nil => simp [joinBuf]
  | cons c d => simp [joinBuf]

/-- For a fixed first element, `Join` of it and an ordinary element is the element behind a
fixed prefix. -/
theorem joinChars_ordinary (d : List Char) :
    ∃ base : List Char, ∀ f : List Char, ordinary f → joinChars [d, f] = base ++ f := by
  have hsum : ∀ f : List Char, f ≠ [] → ¬ ((([d, f] : List (List Char)).map List.length).sum = 0) := by
    intro f hf
    have := List.length_pos.mpr hf
    simp only [List.map_cons, List.map_nil, List.sum_cons, List.sum_nil]
    omega
  by_cases hd : d = []
  · refine ⟨[], fun f hf => ?_⟩
    unfold joinChars
    rw [if_neg (hsum f hf.1), joinBuf_pair d f hf.1, if_pos hd, cleanChars_ordinary f hf]
    rfl
  · obtain ⟨base, hbase⟩ := cleanChars_ordinary_last d
    refine ⟨base, fun f hf => ?_⟩
    unfold joinChars
    rw [if_neg (hsum f hf.1), joinBuf_pair d f hf.1, if_neg hd, hbase f hf]

/-- For a fixed first element, `Join` is one to one on ordinary second elements. -/
theorem Join_injective_of_ordinary (d f g : String) (hf : ordinary f.data) (hg : ordinary g.data)
    (h : Join [d, f] = Join [d, g]) : f = g := by
  obtain ⟨base, hbase⟩ := joinChars_ordinary d.data
  have hdata : joinChars [d.data, f.data] = joinChars [d.data, g.data] := congrArg String.data h
  rw [hbase f.data hf, hbase g.data hg] at hdata
  exact String.ext (List.append_cancel_left hdata)

end path

namespace measurements

/-! ## The artifact name and path -/

theorem pprofFile_data (target : config.PProftarget) (pod : Pod) (ts : Int) :
    (pprofFile target pod ts).data =
      (target.Name.data ++ '-' :: (pod.Name.data ++ '-' :: (toString ts).data)) ++
        ".pprof".data := by
  simp [pprofFile, String.data_append]

theorem not_mem_of_isDigit (a : Char) (ha : a.isDigit = false) (ds : List Char)
    (h : ∀ c ∈ ds, c.isDigit = true) : a ∉ ds := by
  intro hmem
  rw [h a hmem] at ha
  exact absurd ha (by simp)

/-- The artifact name is an ordinary path element when the names have no slash and the
timestamp is not negative. -/
theorem pprofFile_ordinary (target : config.PProftarget) (pod : Pod) (ts : Int)
    (hT : '/' ∉ target.Name.data) (hP : '/' ∉ pod.Name.data) (hts : 0 ≤ ts) :
    path.ordinary (pprofFile target pod ts).data := by
  obtain ⟨n, -, hn⟩ := toString_int_of_nonneg ts hts
  have hdig := (toString_nat_digits n).1
  have hD : '/' ∉ (toString ts).data := by
    rw [hn]; exact not_mem_of_isDigit '/' (by decide) _ hdig
  have hmem : '-' ∈ (pprofFile target pod ts).data := by
    rw [pprofFile_data]; simp
  refine ⟨?_, ?_, ?_, ?_⟩
  · intro h; rw [h] at hmem; simp at hmem
  · rw [pprofFile_data]
    simp only [List.mem_append, List.mem_cons, not_or]
    refine ⟨⟨hT, by decide, hP, by decide, hD⟩, by decide⟩
  · intro h; rw [h] at hmem; exact absurd hmem (by decide)
  · intro h; rw [h] at hmem; exact absurd hmem (by decide)

/-- C8 (as amended): for a fixed output directory the artifact path depends on the target
name, the pod name and the timestamp only; and for target names without `-` or `/`, pod
names without `/`, and timestamps that are not negative, two artifact paths are equal only
when the three are. -/
theorem artifactPath_eq_iff (directory : String) (t1 t2 : config.PProftarget) (pod1 pod2 : Pod)
    (ts1 ts2 : Int)
    (hdash1 : '-' ∉ t1.Name.data) (hdash2 : '-' ∉ t2.Name.data)
    (hslash1 : '/' ∉ t1.Name.data) (hslash2 : '/' ∉ t2.Name.data)
    (hpod1 : '/' ∉ pod1.Name.data) (hpod2 : '/' ∉ pod2.Name.data)
    (hts1 : 0 ≤ ts1) (hts2 : 0 ≤ ts2) :
    artifactPath directory t1 pod1 ts1 = artifactPath directory t2 pod2 ts2 ↔
      (t1.Name = t2.Name ∧ pod1.Name = pod2.Name ∧ ts1 = ts2) := by
  constructor
  · intro h
    have hfile := path.Join_injective_of_ordinary directory _ _
      (pprofFile_ordinary t1 pod1 ts1 hslash1 hpod1 hts1)
      (pprofFile_ordinary t2 pod2 ts2 hslash2 hpod2 hts2) h
    have hdata := congrArg String.data hfile
    rw [pprofFile_data, pprofFile_data] at hdata
    have hbody := List.append_cancel_right hdata
    obtain ⟨hT, hrest⟩ := split_at_first '-' _ _ _ _ hdash1 hdash2 hbody
    obtain ⟨n1, hn1, hs1⟩ := toString_int_of_nonneg ts1 hts1
    obtain ⟨n2, hn2, hs2⟩ := toString_int_of_nonneg ts2 hts2
    rw [hs1, hs2] at hrest
    obtain ⟨hd1, hv1⟩ := toString_nat_digits n1
    obtain ⟨hd2, hv2⟩ := toString_nat_digits n2
    obtain ⟨hP, hD⟩ := split_at_last '-' _ _ _ _
      (not_mem_of_isDigit '-' (by decide) _ hd1) (not_mem_of_isDigit '-' (by decide) _ hd2) hrest
    refine ⟨String.ext hT, String.ext hP, ?_⟩
    rw [hn1, hn2, ← hv1, ← hv2, hD]
  · rintro ⟨hT, hP, hts⟩
    unfold artifactPath pprofFile
    rw [hT, hP, hts]

/-- C8 (as amended) on the pods `e1` and `e2` of the target `api` in the same second:
their artifact paths differ. -/
theorem artifactPath_eq_iff_witness :
    '-' ∉ (sampleTarget "api" "").Name.data ∧ '/' ∉ (sampleTarget "api" "").Name.data ∧
    '/' ∉ (samplePod "e1").Name.data ∧ '/' ∉ (samplePod "e2").Name.data ∧
    ¬ (artifactPath "pprof" (sampleTarget "api" "") (samplePod "e1") 1600000000 =
      artifactPath "pprof" (sampleTarget "api" "") (samplePod "e2") 1600000000) :=
  ⟨by decide, by decide, by decide, by decide, fun h =>
    absurd ((artifactPath_eq_iff "pprof" (sampleTarget "api" "") (sampleTarget "api" "")
      (samplePod "e1") (samplePod "e2") 1600000000 1600000000 (by decide) (by decide)
      (by decide) (by decide) (by decide) (by decide) (by decide) (by decide)).mp h).2.1
      (by decide)⟩

/-- C8 as stated fails: the target `a-b` with the pod `c` and the target `a` with the pod
`b-c` are distinct triples with one artifact path. -/
theorem artifactPath_collision :
    ((sampleTarget "a-b" "").Name, (samplePod "c").Name, (1600000000 : Int)) ≠
      ((sampleTarget "a" "").Name, (samplePod "b-c").Name, (1600000000 : Int)) ∧
    artifactPath "pprof" (sampleTarget "a-b" "") (samplePod "c") 1600000000 =
      artifactPath "pprof" (sampleTarget "a" "") (samplePod "b-c") 1600000000 ∧
    artifactPath "pprof" (sampleTarget "a-b" "") (samplePod "c") 1600000000 =
      "pprof/a-b-c-1600000000.pprof" :=
  ⟨by decide, by decide, by decide⟩




/-! ## One goroutine run alone -/

theorem fsPaths_fsWrite (fs : List (String × String)) (f out : String) :
    fsPaths (fsWrite fs f out) = fsPaths fs := by
  unfold fsPaths fsWrite
  rw [List.map_map]
  apply List.map_congr_left
  intro e _
  by_cases h : e.1 = f <;> simp [h]

theorem fsPaths_fsCreate (fs : List (String × String)) (f : String) :
    fsPaths (fsCreate fs f) = f :: (fsPaths fs).filter (fun x => x ≠ f) := by
  unfold fsPaths fsCreate
  rw [List.map_cons, List.filter_map]
  rfl

/-- A goroutine whose `os.Create` fails logs the error and ends: nothing is created. -/
theorem collectorTask_create_error (env : Env) (fac : measurementFactory) (p : pprof)
    (s : Pass) (target : config.PProftarget) (pod : Pod) (err : String)
    (h : env.createErr (artifactPath p.directory target pod (env.now s.world.clock)) = some err) :
    collectorTask env fac p s target pod =
      .ok (Pass.mk
        (({ s.world with clock := s.world.clock + 1 } : World).logf .error
          ("Error creating pprof file " ++ pprofFile target pod (env.now s.world.clock) ++ ": " ++
            err))
        s.command s.requests) := by
  unfold artifactPath at h
  simp only [collectorTask, Task.run, Task.step, h]

/-- A goroutine run alone whose `Stream` fails logs the error and ends. -/
theorem collectorTask_stream_error (env : Env) (fac : measurementFactory) (p : pprof)
    (s : Pass) (target : config.PProftarget) (pod : Pod) (clientSet : Clientset)
    (req : ExecRequest) (exec : Executor) (err : String)
    (hcreate : env.createErr (artifactPath p.directory target pod (env.now s.world.clock)) = none)
    (hclient : fac.clientSet = some clientSet)
    (hreq : execRequest (buildCommand target) pod = some req)
    (hexec : env.newSPDYExecutor fac.restConfig req = (some exec, none))
    (hstream : (exec.Stream (streamOptions
      (artifactPath p.directory target pod (env.now s.world.clock)))).2 = some err) :
    ∃ s1, collectorTask env fac p s target pod = .ok s1 ∧
      s1.world.log = s.world.log ++
        [(.error, "Failed to get results from " ++ target.Name ++ ": " ++ err)] := by
  unfold artifactPath at hcreate hstream
  simp only [collectorTask, Task.run, Task.step, hcreate, hclient, hreq, hexec, hstream]
  exact ⟨_, rfl, rfl⟩

/-- A goroutine for which `NewSPDYExecutor` returns a nil executor panics, whatever error
comes with it: the error is logged and `exec.Stream` is called all the same. -/
theorem collectorTask_nil_executor (env : Env) (fac : measurementFactory) (p : pprof)
    (s : Pass) (target : config.PProftarget) (pod : Pod) (clientSet : Clientset)
    (req : ExecRequest)
    (hcreate : env.createErr (artifactPath p.directory target pod (env.now s.world.clock)) = none)
    (hclient : fac.clientSet = some clientSet)
    (hreq : execRequest (buildCommand target) pod = some req)
    (hexec : (env.newSPDYExecutor fac.restConfig req).1 = none) :
    collectorTask env fac p s target pod = .error nilDereference := by
  unfold artifactPath at hcreate
  simp only [collectorTask, Task.run, Task.step, hcreate, hclient, hreq, hexec]

/-- C5 fails on the code: when `NewSPDYExecutor` returns `nil` and an error for the pod
`e1` of the target `api`, the goroutine does not end normally but panics on the nil
executor, and the pass with it, before the goroutine of the pod `e2` has run. -/
theorem collectorTask_executor_failure_panics :
    collectorTask noExecutorEnv readyFactory (samplePprof [sampleTarget "api" ""])
      (Pass.fresh emptyWorld) (sampleTarget "api" "") (samplePod "e1") = .error nilDereference ∧
    (samplePprof [sampleTarget "api" ""]).getPProf noExecutorEnv readyFactory emptyWorld =
      .error nilDereference ∧
    (∃ s1, collectorTask sampleEnv readyFactory (samplePprof [sampleTarget "api" ""])
      (Pass.fresh emptyWorld) (sampleTarget "api" "") (samplePod "e1") = .ok s1) := by
  refine ⟨rfl, rfl, _, rfl⟩

/-- A step of a goroutine that has created its file, or has ended at that, takes no clock
reading and leaves the paths of the files as they are. -/
theorem Task.step_later (env : Env) (fac : measurementFactory) (p : pprof) (t t1 : Task)
    (s s1 : Pass) (hlater : ∀ a b, t ≠ .started a b) (h : t.step env fac p s = .ok (t1, s1)) :
    (∀ a b, t1 ≠ .started a b) ∧ s1.world.clock = s.world.clock ∧
      fsPaths s1.world.fs = fsPaths s.world.fs := by
  cases t with
  | started a b => exact absurd rfl (hlater a b)
  | created target pod f =>
    simp only [Task.step, Except.ok.injEq, Prod.mk.injEq] at h
    obtain ⟨rfl, rfl⟩ := h
    exact ⟨(fun a b hc => by cases hc), rfl, rfl⟩
  | assigned target pod f =>
    simp only [Task.step] at h
    split at h
    · exact absurd h (by simp)
    · split at h
      · exact absurd h (by simp)
      · simp only [Except.ok.injEq, Prod.mk.injEq] at h
        obtain ⟨rfl, rfl⟩ := h
        refine ⟨(fun a b hc => by cases hc), ?_, ?_⟩ <;> (simp only; split <;> rfl)
  | requested target pod f exec =>
    simp only [Task.step] at h
    split at h
    · exact absurd h (by simp)
    · split at h <;>
      · simp only [Except.ok.injEq, Prod.mk.injEq] at h
        obtain ⟨rfl, rfl⟩ := h
        exact ⟨(fun a b hc => by cases hc), rfl, by simp [World.logf, fsPaths_fsWrite]⟩
  | finished =>
    simp only [Task.step, Except.ok.injEq, Prod.mk.injEq] at h
    obtain ⟨rfl, rfl⟩ := h
    exact ⟨(fun a b hc => by cases hc), rfl, rfl⟩

/-- Steps of a goroutine that has created its file take no clock reading and leave the
paths of the files as they are. -/
theorem Task.run_later (env : Env) (fac : measurementFactory) (p : pprof) (n : Nat) :
    ∀ (t t1 : Task) (s s1 : Pass), (∀ a b, t ≠ .started a b) →
      Task.run env fac p n t s = .ok (t1, s1) →
      s1.world.clock = s.world.clock ∧ fsPaths s1.world.fs = fsPaths s.world.fs := by
  induction n with
  | zero =>
    intro t t1 s s1 _ h
    simp only [Task.run, Except.ok.injEq, Prod.mk.injEq] at h
    obtain ⟨-, rfl⟩ := h
    exact ⟨rfl, rfl⟩
  | succ n ih =>
    intro t t1 s s1 hlater h
    simp only [Task.run] at h
    split at h
    · exact absurd h (by simp)
    · rename_i t0 s0 hstep
      obtain ⟨hl0, hc0, hf0⟩ := Task.step_later env fac p t t0 s s0 hlater hstep
      obtain ⟨hc1, hf1⟩ := ih t0 t1 s0 s1 hl0 h
      exact ⟨by rw [hc1, hc0], by rw [hf1, hf0]⟩

/-- The first step of a goroutine: one clock reading, and the artifact path in front of the
paths when `os.Create` succeeded. -/
theorem Task.step_started (env : Env) (fac : measurementFactory) (p : pprof)
    (target : config.PProftarget) (pod : Pod) (t1 : Task) (s s1 : Pass)
    (h : (Task.started target pod).step env fac p s = .ok (t1, s1)) :
    (∀ a b, t1 ≠ .started a b) ∧ s1.world.clock = s.world.clock + 1 ∧
      fsPaths s1.world.fs = applyCreates env
        [artifactPath p.directory target pod (env.now s.world.clock)] (fsPaths s.world.fs) := by
  unfold artifactPath
  simp only [Task.step] at h
  split at h
  · rename_i err hc
    simp only [Except.ok.injEq, Prod.mk.injEq] at h
    obtain ⟨rfl, rfl⟩ := h
    exact ⟨(fun a b hx => by cases hx), rfl, by simp [applyCreates, hc, World.logf]⟩
  · rename_i hc
    simp only [Except.ok.injEq, Prod.mk.injEq] at h
    obtain ⟨rfl, rfl⟩ := h
    exact ⟨(fun a b hx => by cases hx), rfl, by simp [applyCreates, hc, fsPaths_fsCreate]⟩

/-- What a goroutine run alone leaves behind when it ends: one clock reading taken, and
the artifact path in front of the paths when `os.Create` succeeded. -/
theorem collectorTask_ok (env : Env) (fac : measurementFactory) (p : pprof) (s s1 : Pass)
    (target : config.PProftarget) (pod : Pod)
    (h : collectorTask env fac p s target pod = .ok s1) :
    s1.world.clock = s.world.clock + 1 ∧
    fsPaths s1.world.fs = applyCreates env
      [artifactPath p.directory target pod (env.now s.world.clock)] (fsPaths s.world.fs) := by
  unfold collectorTask at h
  split at h
  · exact absurd h (by simp)
  · rename_i t4 s4 hrun
    simp only [Except.ok.injEq] at h
    subst h
    rw [show (4 : Nat) = 3 + 1 from rfl] at hrun
    simp only [Task.run] at hrun
    split at hrun
    · exact absurd hrun (by simp)
    · rename_i t0 s0 hstep
      obtain ⟨hl0, hc0, hf0⟩ := Task.step_started env fac p target pod t0 s s0 hstep
      obtain ⟨hc1, hf1⟩ := Task.run_later env fac p 3 t0 t4 s0 s4 hl0 hrun
      exact ⟨by rw [hc1, hc0], by rw [hf1, hf0]⟩

/-- The request of a goroutine run alone carries the command the goroutine assigned. -/
theorem collectorTask_request (env : Env) (fac : measurementFactory) (p : pprof) (s s1 : Pass)
    (target : config.PProftarget) (pod : Pod) (req : ExecRequest)
    (hcreate : env.createErr (artifactPath p.directory target pod (env.now s.world.clock)) = none)
    (hreq : execRequest (buildCommand target) pod = some req)
    (h : collectorTask env fac p s target pod = .ok s1) :
    s1.requests = s.requests ++ [req] ∧ req.Params.Command = buildCommand target := by
  unfold artifactPath at hcreate
  have hcmd : req.Params.Command = buildCommand target := by
    unfold execRequest at hreq
    split at hreq
    · exact absurd hreq (by simp)
    · simp only [Option.some.injEq] at hreq
      rw [← hreq]
  refine ⟨?_, hcmd⟩
  cases hcl : fac.clientSet with
  | none => simp [collectorTask, Task.run, Task.step, hcreate, hreq, hcl] at h
  | some cs =>
    cases hx : (env.newSPDYExecutor fac.restConfig req).1 with
    | none => simp [collectorTask, Task.run, Task.step, hcreate, hreq, hcl, hx] at h
    | some exec =>
      cases hst : (exec.Stream (streamOptions
        (path.Join [p.directory, pprofFile target pod (env.now s.world.clock)]))).2 with
      | none =>
        simp only [collectorTask, Task.run, Task.step, hcreate, hreq, hcl, hx, hst,
          Except.ok.injEq] at h
        rw [← h]
      | some err =>
        simp only [collectorTask, Task.run, Task.step, hcreate, hreq, hcl, hx, hst,
          Except.ok.injEq] at h
        rw [← h]


/-- For every two targets: when a second goroutine assigns `command` between the
assignment of a first goroutine and the step in which the first builds its request, the
three steps succeed and the request of the first carries the command of the target of the
second. -/
theorem Task.request_reads_last_assignment (env : Env) (fac : measurementFactory) (p : pprof)
    (s : Pass) (t1 t2 : config.PProftarget) (pod1 pod2 : Pod) (f1 f2 : String)
    (clientSet : Clientset) (c : Container) (more : List Container)
    (hclient : fac.clientSet = some clientSet) (hcont : pod1.Spec.Containers = c :: more) :
    match (Task.created t1 pod1 f1).step env fac p s with
    | .error _ => False
    | .ok (ta, sa) =>
      match (Task.created t2 pod2 f2).step env fac p sa with
      | .error _ => False
      | .ok (_, sb) =>
        match ta.step env fac p sb with
        | .error _ => False
        | .ok (_, sc) =>
          sc.requests.map (fun q => q.Params.Command) =
            s.requests.map (fun q => q.Params.Command) ++ [buildCommand t2] := by
  simp only [Task.step, hclient, execRequest, hcont]
  simp

/-! ## The files after a run of creations -/

theorem applyCreates_append (env : Env) (a b : List String) :
    ∀ base, applyCreates env (a ++ b) base = applyCreates env b (applyCreates env a base) := by
  induction a with
  | nil => intro base; rfl
  | cons q rest ih =>
    intro base
    simp only [List.cons_append, applyCreates]
    split <;> exact ih _

theorem applyCreates_mem (env : Env) (paths : List String) :
    ∀ base q, q ∈ applyCreates env paths base ↔
      q ∈ base ∨ (q ∈ paths ∧ env.createErr q = none) := by
  induction paths with
  | nil => intro base q; simp [applyCreates]
  | cons x rest ih =>
    intro base q
    simp only [applyCreates]
    cases hx : env.createErr x with
    | none =>
      simp only [ih, List.mem_cons, List.mem_filter, ne_eq, decide_not, Bool.not_eq_true',
        decide_eq_false_iff_not]
      by_cases hq : q = x
      · subst hq; simp [hx]
      · simp [hq]
    | some e =>
      simp only [ih, List.mem_cons]
      by_cases hq : q = x
      · subst hq; simp [hx]
      · simp [hq]

theorem applyCreates_all_new (env : Env) (paths : List String) :
    ∀ base, (∀ q ∈ paths, env.createErr q = none) → paths.Nodup → (∀ q ∈ paths, q ∉ base) →
      applyCreates env paths base = paths.reverse ++ base := by
  induction paths with
  | nil => intro base _ _ _; rfl
  | cons x rest ih =>
    intro base hok hnd hnew
    rw [List.nodup_cons] at hnd
    have hx : env.createErr x = none := hok x (by simp)
    have hfilter : base.filter (fun y => y ≠ x) = base := by
      rw [List.filter_eq_self]
      intro y hy
      have : y ≠ x := fun h => hnew x (by simp) (h ▸ hy)
      simpa using this
    simp only [applyCreates, hx, hfilter]
    rw [ih (x :: base) (fun q hq => hok q (List.mem_cons_of_mem _ hq)) hnd.2]
    · simp
    · intro q hq hmem
      rcases List.mem_cons.mp hmem with h | h
      · exact hnd.1 (h ▸ hq)
      · exact hnew q (List.mem_cons_of_mem _ hq) h

theorem pairPaths_append (env : Env) (directory : String)
    (a b : List (config.PProftarget × Pod)) :
    ∀ c, pairPaths env directory c (a ++ b) =
      pairPaths env directory c a ++ pairPaths env directory (c + a.length) b := by
  induction a with
  | nil => intro c; simp [pairPaths]
  | cons x rest ih =>
    intro c
    obtain ⟨t, pod⟩ := x
    rw [List.cons_append]
    simp only [pairPaths]
    rw [ih (c + 1), List.length_cons, show c + 1 + rest.length = c + (rest.length + 1) by omega]
    rfl

theorem pairPaths_length (env : Env) (directory : String)
    (a : List (config.PProftarget × Pod)) :
    ∀ c, (pairPaths env directory c a).length = a.length := by
  induction a with
  | nil => intro c; rfl
  | cons x rest ih =>
    intro c
    obtain ⟨t, pod⟩ := x
    simp [pairPaths, ih]

/-! ## The loops of `getPProf` -/

/-- What `getPods` returns when it returns: the pods the target resolves to, with the files
and the clock left as they were. -/
theorem getPods_ok (env : Env) (fac : measurementFactory) (clientSet : Clientset) (w w1 : World)
    (target : config.PProftarget) (pods : List Pod) (hclient : fac.clientSet = some clientSet)
    (h : getPods env fac w target = .ok (pods, w1)) :
    pods = resolved env clientSet target ∧ w1.fs = w.fs ∧ w1.clock = w.clock := by
  unfold getPods at h
  simp only [hclient] at h
  unfold resolved
  split at h
  · exact absurd h (by simp)
  · rename_i podList hlist
    simp only [Except.ok.injEq, Prod.mk.injEq] at h
    rw [hlist]
    refine ⟨h.1.symm, ?_, ?_⟩
    · rw [← h.2]; split <;> rfl
    · rw [← h.2]; split <;> rfl

/-- What the inner loop of `getPProf` leaves behind when it ends. -/
theorem collectPods_ok (env : Env) (fac : measurementFactory) (p : pprof)
    (target : config.PProftarget) (pods : List Pod) :
    ∀ s s1, collectPods env fac p target pods s = .ok s1 →
      s1.world.clock = s.world.clock + pods.length ∧
      fsPaths s1.world.fs = applyCreates env
        (pairPaths env p.directory s.world.clock (pods.map (fun pod => (target, pod))))
        (fsPaths s.world.fs) := by
  induction pods with
  | nil =>
    intro s s1 h
    simp only [collectPods, Except.ok.injEq] at h
    subst h
    exact ⟨rfl, rfl⟩
  | cons pod rest ih =>
    intro s s1 h
    simp only [collectPods] at h
    split at h
    · exact absurd h (by simp)
    · rename_i s0 htask
      obtain ⟨hc0, hf0⟩ := collectorTask_ok env fac p s s0 target pod htask
      obtain ⟨hc1, hf1⟩ := ih s0 s1 h
      refine ⟨by rw [hc1, hc0, List.length_cons]; omega, ?_⟩
      rw [hf1, hf0, hc0]
      simp only [List.map_cons, pairPaths, applyCreates]
      split <;> rfl

/-- What the outer loop of `getPProf` leaves behind when it ends. -/
theorem collectTargets_ok (env : Env) (fac : measurementFactory) (clientSet : Clientset)
    (p : pprof) (hclient : fac.clientSet = some clientSet) (targets : List config.PProftarget) :
    ∀ s s1, collectTargets env fac p targets s = .ok s1 →
      s1.world.clock = s.world.clock + (passPairs env clientSet targets).length ∧
      fsPaths s1.world.fs = applyCreates env
        (pairPaths env p.directory s.world.clock (passPairs env clientSet targets))
        (fsPaths s.world.fs) := by
  induction targets with
  | nil =>
    intro s s1 h
    simp only [collectTargets, Except.ok.injEq] at h
    subst h
    exact ⟨rfl, rfl⟩
  | cons target rest ih =>
    intro s s1 h
    simp only [collectTargets] at h
    split at h
    · exact absurd h (by simp)
    · rename_i pods wa hpods
      split at h
      · exact absurd h (by simp)
      · rename_i sb hcollect
        obtain ⟨hres, hfa, hca⟩ := getPods_ok env fac clientSet _ wa target pods hclient hpods
        obtain ⟨hcb, hfb⟩ := collectPods_ok env fac p target pods _ sb hcollect
        obtain ⟨hcc, hfc⟩ := ih sb s1 h
        have hfa' : fsPaths wa.fs = fsPaths s.world.fs := by rw [hfa]; rfl
        have hca' : wa.clock = s.world.clock := by rw [hca]; rfl
        simp only at hcb hfb
        have hpairs : passPairs env clientSet (target :: rest) =
            pods.map (fun pod => (target, pod)) ++ passPairs env clientSet rest := by
          simp [passPairs, hres]
        rw [hpairs]
        refine ⟨by rw [hcc, hcb, hca', List.length_append, List.length_map]; omega, ?_⟩
        rw [hfc, hfb, hcb, hfa', hca', pairPaths_append, applyCreates_append, List.length_map]

/-- The loop over the targets, cut in two. -/
theorem collectTargets_append (env : Env) (fac : measurementFactory) (p : pprof)
    (a b : List config.PProftarget) :
    ∀ s, collectTargets env fac p (a ++ b) s =
      (collectTargets env fac p a s).bind (fun s1 => collectTargets env fac p b s1) := by
  induction a with
  | nil => intro s; rfl
  | cons t rest ih =>
    intro s
    simp only [List.cons_append, collectTargets]
    split
    · rfl
    · split
      · rfl
      · exact ih _

/-! ## When a pass ends -/

/-- A goroutine run alone ends when the factory holds a client set, the pod has a container
and the executor built is not nil. -/
theorem collectorTask_ends (env : Env) (fac : measurementFactory) (clientSet : Clientset)
    (p : pprof) (s : Pass) (target : config.PProftarget) (pod : Pod)
    (hclient : fac.clientSet = some clientSet) (hcont : pod.Spec.Containers ≠ [])
    (hexec : ∀ req, (env.newSPDYExecutor fac.restConfig req).1 ≠ none) :
    ∃ s1, collectorTask env fac p s target pod = .ok s1 := by
  cases hc : env.createErr
      (path.Join [p.directory, pprofFile target pod (env.now s.world.clock)]) with
  | some err =>
    simp only [collectorTask, Task.run, Task.step, hc]
    exact ⟨_, rfl⟩
  | none =>
    obtain ⟨c, cs, hcs⟩ := List.exists_cons_of_ne_nil hcont
    have hreq : ∃ req, execRequest (buildCommand target) pod = some req := by
      simp only [execRequest, hcs]
      exact ⟨_, rfl⟩
    obtain ⟨req, hreq⟩ := hreq
    cases hx : (env.newSPDYExecutor fac.restConfig req).1 with
    | none => exact absurd hx (hexec req)
    | some exec =>
      cases hst : (exec.Stream (streamOptions
        (path.Join [p.directory, pprofFile target pod (env.now s.world.clock)]))).2 with
      | none =>
        simp only [collectorTask, Task.run, Task.step, hc, hclient, hreq, hx, hst]
        exact ⟨_, rfl⟩
      | some err =>
        simp only [collectorTask, Task.run, Task.step, hc, hclient, hreq, hx, hst]
        exact ⟨_, rfl⟩

theorem collectPods_ends (env : Env) (fac : measurementFactory) (clientSet : Clientset)
    (p : pprof) (target : config.PProftarget) (pods : List Pod)
    (hclient : fac.clientSet = some clientSet)
    (hexec : ∀ req, (env.newSPDYExecutor fac.restConfig req).1 ≠ none) :
    (∀ pod ∈ pods, pod.Spec.Containers ≠ []) →
      ∀ s, ∃ s1, collectPods env fac p target pods s = .ok s1 := by
  induction pods with
  | nil => intro _ s; exact ⟨s, rfl⟩
  | cons pod rest ih =>
    intro hcont s
    obtain ⟨s0, h0⟩ := collectorTask_ends env fac clientSet p s target pod hclient
      (hcont pod (by simp)) hexec
    obtain ⟨s1, h1⟩ := ih (fun q hq => hcont q (List.mem_cons_of_mem _ hq)) s0
    exact ⟨s1, by simp only [collectPods, h0]; exact h1⟩

theorem getPods_ends (env : Env) (fac : measurementFactory) (clientSet : Clientset) (w : World)
    (target : config.PProftarget) (hclient : fac.clientSet = some clientSet)
    (hlist : (env.listPods clientSet target.Namespace
      (env.labelsString target.LabelSelector)).1 ≠ none) :
    ∃ w1, getPods env fac w target = .ok (resolved env clientSet target, w1) := by
  unfold getPods resolved
  simp only [hclient]
  split
  · rename_i hnone; exact absurd hnone hlist
  · rename_i podList hsome
    rw [hsome]
    exact ⟨_, rfl⟩

theorem collectTargets_ends (env : Env) (fac : measurementFactory) (clientSet : Clientset)
    (p : pprof) (hclient : fac.clientSet = some clientSet)
    (hexec : ∀ req, (env.newSPDYExecutor fac.restConfig req).1 ≠ none)
    (targets : List config.PProftarget) :
    (∀ t ∈ targets, (env.listPods clientSet t.Namespace (env.labelsString t.LabelSelector)).1 ≠
      none) →
    (∀ pair ∈ passPairs env clientSet targets, pair.2.Spec.Containers ≠ []) →
      ∀ s, ∃ s1, collectTargets env fac p targets s = .ok s1 := by
  induction targets with
  | nil => intro _ _ s; exact ⟨s, rfl⟩
  | cons t rest ih =>
    intro hlist hcont s
    obtain ⟨wa, ha⟩ := getPods_ends env fac clientSet
      (s.world.logf .info ("Collecting " ++ t.Name ++ " pprof")) t hclient (hlist t (by simp))
    have hpairs : passPairs env clientSet (t :: rest) =
        (resolved env clientSet t).map (fun pod => (t, pod)) ++ passPairs env clientSet rest := by
      simp [passPairs]
    obtain ⟨sb, hb⟩ := collectPods_ends env fac clientSet p t (resolved env clientSet t) hclient
      hexec (fun pod hpod => hcont (t, pod) (by rw [hpairs]; simp [hpod]))
      { s with world := wa }
    obtain ⟨s1, h1⟩ := ih (fun x hx => hlist x (List.mem_cons_of_mem _ hx))
      (fun pair hpair => hcont pair (by rw [hpairs]; exact List.mem_append_right _ hpair)) sb
    exact ⟨s1, by simp only [collectTargets, ha, hb]; exact h1⟩


/-! ## The pass in which each goroutine runs to its end as soon as it is started -/

theorem Task.step_rank (env : Env) (fac : measurementFactory) (p : pprof) (t t1 : Task)
    (s s1 : Pass) (h : t.step env fac p s = .ok (t1, s1)) : t1.rank ≤ t.rank - 1 := by
  cases t with
  | started target pod =>
    simp only [Task.step] at h
    split at h <;>
    · simp only [Except.ok.injEq, Prod.mk.injEq] at h
      obtain ⟨rfl, -⟩ := h
      simp [Task.rank]
  | created target pod f =>
    simp only [Task.step, Except.ok.injEq, Prod.mk.injEq] at h
    obtain ⟨rfl, -⟩ := h
    simp [Task.rank]
  | assigned target pod f =>
    simp only [Task.step] at h
    split at h
    · exact absurd h (by simp)
    · split at h
      · exact absurd h (by simp)
      · simp only [Except.ok.injEq, Prod.mk.injEq] at h
        obtain ⟨rfl, -⟩ := h
        simp [Task.rank]
  | requested target pod f exec =>
    simp only [Task.step] at h
    split at h
    · exact absurd h (by simp)
    · split at h <;>
      · simp only [Except.ok.injEq, Prod.mk.injEq] at h
        obtain ⟨rfl, -⟩ := h
        simp [Task.rank]
  | finished =>
    simp only [Task.step, Except.ok.injEq, Prod.mk.injEq] at h
    obtain ⟨rfl, -⟩ := h
    simp [Task.rank]

theorem Task.run_rank (env : Env) (fac : measurementFactory) (p : pprof) (n : Nat) :
    ∀ (t t1 : Task) (s s1 : Pass), Task.run env fac p n t s = .ok (t1, s1) →
      t1.rank ≤ t.rank - n := by
  induction n with
  | zero =>
    intro t t1 s s1 h
    simp only [Task.run, Except.ok.injEq, Prod.mk.injEq] at h
    obtain ⟨rfl, -⟩ := h
    simp
  | succ n ih =>
    intro t t1 s s1 h
    simp only [Task.run] at h
    split at h
    · exact absurd h (by simp)
    · rename_i t0 s0 hstep
      have h0 := Task.step_rank env fac p t t0 s s0 hstep
      have h1 := ih t0 t1 s0 s1 h
      omega

/-- A goroutine has returned after four steps of its own. -/
theorem Task.run_four_finished (env : Env) (fac : measurementFactory) (p : pprof)
    (target : config.PProftarget) (pod : Pod) (t1 : Task) (s s1 : Pass)
    (h : Task.run env fac p 4 (.started target pod) s = .ok (t1, s1)) : t1 = .finished := by
  have hr := Task.run_rank env fac p 4 _ t1 s s1 h
  cases t1 <;> simp [Task.rank] at hr ⊢

theorem Run.steps_none (env : Env) (fac : measurementFactory) (p : pprof)
    (rest : List (Option Nat)) (r : Run) :
    Run.steps env fac p (none :: rest) r =
      match r.mainStep env fac with
      | .error e => .error e
      | .ok r1 => Run.steps env fac p rest r1 := rfl

/-- The steps of the last goroutine started, taken in a row, are the steps of `Task.run`. -/
theorem Run.steps_last_task (env : Env) (fac : measurementFactory) (p : pprof)
    (targets : List config.PProftarget) (pods : List (config.PProftarget × Pod))
    (before : List Task) (rest : List (Option Nat)) (n : Nat) :
    ∀ (t : Task) (s : Pass),
      Run.steps env fac p (List.replicate n (some before.length) ++ rest)
          { pass := s, targets := targets, pods := pods, tasks := before ++ [t] } =
        match Task.run env fac p n t s with
        | .error e => .error e
        | .ok (t1, s1) =>
          Run.steps env fac p rest
            { pass := s1, targets := targets, pods := pods, tasks := before ++ [t1] } := by
  induction n with
  | zero => intro t s; rfl
  | succ n ih =>
    intro t s
    simp only [List.replicate_succ, List.cons_append, Run.steps, Run.taskStep,
      List.getElem?_concat_length, Task.run]
    cases hstep : t.step env fac p s with
    | error e => rfl
    | ok res =>
      obtain ⟨t0, s0⟩ := res
      simp only
      rw [List.set_append_right _ _ (Nat.le_refl _)]
      simp only [Nat.sub_self, List.set_cons_zero]
      exact ih t0 s0

/-- The inner loop under the schedule in which each goroutine runs to its end as soon as it
is started. -/
theorem Run.steps_podsInOrder (env : Env) (fac : measurementFactory) (p : pprof)
    (targets : List config.PProftarget) (target : config.PProftarget)
    (rest : List (Option Nat)) (pods : List Pod) :
    ∀ (before : List Task) (s : Pass),
      Run.steps env fac p (podsInOrder before.length pods ++ rest)
          { pass := s, targets := targets, pods := pods.map (fun pod => (target, pod)),
            tasks := before } =
        match collectPods env fac p target pods s with
        | .error e => .error e
        | .ok s1 =>
          Run.steps env fac p rest
            { pass := s1, targets := targets, pods := [],
              tasks := before ++ List.replicate pods.length .finished } := by
  induction pods with
  | nil => intro before s; simp [podsInOrder, collectPods]
  | cons pod more ih =>
    intro before s
    have hsched : podsInOrder before.length (pod :: more) ++ rest =
        none :: (List.replicate 4 (some before.length) ++
          (podsInOrder (before ++ [Task.started target pod]).length more ++ rest)) := by
      simp [podsInOrder, List.replicate]
    rw [hsched, Run.steps_none]
    simp only [List.map_cons, Run.mainStep]
    have hlen : (before ++ [Task.started target pod]).length = before.length + 1 := by simp
    rw [Run.steps_last_task env fac p targets (more.map (fun pod => (target, pod))) before _ 4
      (Task.started target pod) s]
    simp only [collectPods, collectorTask]
    cases hrun : Task.run env fac p 4 (Task.started target pod) s with
    | error e => rfl
    | ok res =>
      obtain ⟨t1, s1⟩ := res
      have hfin := Task.run_four_finished env fac p target pod t1 s s1 hrun
      subst hfin
      simp only
      have hlen1 : (before ++ [Task.finished]).length = (before ++ [Task.started target pod]).length := by
        simp
      rw [← hlen1, ih (before ++ [Task.finished]) s1]
      cases collectPods env fac p target more s1 with
      | error e => rfl
      | ok s2 =>
        simp only [List.length_cons, List.replicate_succ, List.append_assoc, List.singleton_append]

theorem getPods_resolvedBy (env : Env) (fac : measurementFactory) (w w1 : World)
    (target : config.PProftarget) (pods : List Pod)
    (h : getPods env fac w target = .ok (pods, w1)) : pods = resolvedBy env fac target := by
  unfold getPods at h
  unfold resolvedBy
  split at h
  · exact absurd h (by simp)
  · simp only at h
    split at h
    · exact absurd h (by simp)
    · rename_i podList hlist
      simp only [Except.ok.injEq, Prod.mk.injEq] at h
      rw [hlist]
      exact h.1.symm

/-- The outer loop under the schedule in which each goroutine runs to its end as soon as it
is started: the shared state is that of `collectTargets`, both loops are through and every
goroutine has returned; or the panic is that of `collectTargets`. -/
theorem Run.steps_inOrder (env : Env) (fac : measurementFactory) (p : pprof)
    (targets : List config.PProftarget) :
    ∀ (before : List Task) (s : Pass),
      match collectTargets env fac p targets s with
      | .error e =>
        Run.steps env fac p (inOrder env fac before.length targets)
          { pass := s, targets := targets, pods := [], tasks := before } = .error e
      | .ok s1 =>
        ∃ n, Run.steps env fac p (inOrder env fac before.length targets)
          { pass := s, targets := targets, pods := [], tasks := before } =
          .ok { pass := s1, targets := [], pods := [],
                tasks := before ++ List.replicate n .finished } := by
  induction targets with
  | nil =>
    intro before s
    simp only [collectTargets, inOrder, Run.steps]
    exact ⟨0, by simp⟩
  | cons target more ih =>
    intro before s
    rw [inOrder, Run.steps_none]
    simp only [collectTargets, Run.mainStep]
    cases hget : getPods env fac
        (s.world.logf .info ("Collecting " ++ target.Name ++ " pprof")) target with
    | error e => rfl
    | ok res =>
      obtain ⟨podList, w1⟩ := res
      have hres := getPods_resolvedBy env fac _ w1 target podList hget
      subst hres
      simp only
      rw [Run.steps_podsInOrder env fac p more target _ (resolvedBy env fac target) before
        { s with world := w1 }]
      cases hcollect : collectPods env fac p target (resolvedBy env fac target)
          { s with world := w1 } with
      | error e => rfl
      | ok s2 =>
        simp only
        have hlen : (before ++ List.replicate (resolvedBy env fac target).length Task.finished).length =
            before.length + (resolvedBy env fac target).length := by simp
        have := ih (before ++ List.replicate (resolvedBy env fac target).length Task.finished) s2
        rw [hlen] at this
        cases hrest : collectTargets env fac p more s2 with
        | error e => rw [hrest] at this; exact this
        | ok s3 =>
          rw [hrest] at this
          obtain ⟨n, hn⟩ := this
          refine ⟨(resolvedBy env fac target).length + n, ?_⟩
          rw [hn, List.replicate_add, List.append_assoc]

/-- The pass `getPProf` is the pass `getPProfUnder` the schedule in which each goroutine
runs to its end as soon as it is started: the same panic, or the same world at the end,
reached with both loops through and every goroutine returned. -/
theorem getPProf_inOrder (env : Env) (fac : measurementFactory) (p : pprof) (w : World) :
    match p.getPProf env fac w with
    | .error e =>
      p.getPProfUnder env fac w (inOrder env fac 0 p.config.PProfTargets) = .error e
    | .ok w1 =>
      ∃ r, p.getPProfUnder env fac w (inOrder env fac 0 p.config.PProfTargets) = .ok r ∧
        r.ended = true ∧ r.pass.world = w1 := by
  have h := Run.steps_inOrder env fac p p.config.PProfTargets [] (Pass.fresh w)
  unfold pprof.getPProf pprof.getPProfUnder
  cases hc : collectTargets env fac p p.config.PProfTargets (Pass.fresh w) with
  | error e =>
    rw [hc] at h
    exact h
  | ok s1 =>
    rw [hc] at h
    obtain ⟨n, hn⟩ := h
    refine ⟨_, hn, ?_, rfl⟩
    simp [Run.ended, Task.isFinished]


/-! ## A pass -/

/-- C6 (as amended): for every target, when the listing of the pods returns an error,
`getPods` logs the error and returns the items of the list the client handed back with it;
when that list is empty, `getPods` returns no pod, and in a pass the target adds its two
log lines and nothing else, and the targets after it are collected from the state so
reached. -/
theorem getPods_list_error_items (env : Env) (fac : measurementFactory) (clientSet : Clientset)
    (w : World) (target : config.PProftarget) (podList : PodList) (err : String)
    (hclient : fac.clientSet = some clientSet)
    (hlist : env.listPods clientSet target.Namespace (env.labelsString target.LabelSelector) =
      (some podList, some err)) :
    getPods env fac w target =
      .ok (podList.Items, w.logf .error ("Error found listing pods labeled with " ++
        env.labelsString target.LabelSelector ++ ": " ++ err)) ∧
    (podList.Items = [] →
      ∀ (p : pprof) (before after : List config.PProftarget) (s0 : Pass),
        collectTargets env fac p (before ++ target :: after) s0 =
          (collectTargets env fac p before s0).bind (fun s1 =>
            collectTargets env fac p after
              (Pass.mk
                ((s1.world.logf .info ("Collecting " ++ target.Name ++ " pprof")).logf .error
                  ("Error found listing pods labeled with " ++
                    env.labelsString target.LabelSelector ++ ": " ++ err))
                s1.command s1.requests))) := by
  have hget : ∀ w : World, getPods env fac w target =
      .ok (podList.Items, w.logf .error ("Error found listing pods labeled with " ++
        env.labelsString target.LabelSelector ++ ": " ++ err)) := by
    intro w
    unfold getPods
    simp only [hclient, hlist]
  refine ⟨hget w, ?_⟩
  intro hempty p before after s0
  rw [collectTargets_append]
  congr 1
  funext s1
  simp only [collectTargets, hget, hempty, collectPods]

/-- C6 (as amended) on the target `db`, whose listing fails in `sampleEnv` with an empty
list: `getPods` returns no pod and logs the error, and a pass over `db` and `api` still
creates the two artifacts of `api`. -/
theorem getPods_list_error_items_witness :
    readyFactory.clientSet = some { id := 7 } ∧
    sampleEnv.listPods { id := 7 } (sampleTarget "db" "").Namespace
      (sampleEnv.labelsString (sampleTarget "db" "").LabelSelector) =
      (some { Items := [] }, some "connection refused") ∧
    getPods sampleEnv readyFactory emptyWorld (sampleTarget "db" "") =
      .ok ([], emptyWorld.logf .error
        "Error found listing pods labeled with app=db: connection refused") ∧
    ((samplePprof [sampleTarget "db" "", sampleTarget "api" ""]).getPProf sampleEnv readyFactory
      emptyWorld).toOption.map (fun w1 => fsPaths w1.fs) =
      some ["pprof/api-e2-1600000000.pprof", "pprof/api-e1-1600000000.pprof"] :=
  ⟨rfl, by decide,
    (getPods_list_error_items sampleEnv readyFactory { id := 7 } emptyWorld (sampleTarget "db" "")
      { Items := [] } "connection refused" rfl (by decide)).1,
    by decide⟩

/-- C6 as stated fails: when the client hands back the pod `e1` together with an error,
`getPods` logs the error and returns `e1`, and the pass collects from it. -/
theorem getPods_error_with_items :
    (itemsWithErrorEnv.listPods { id := 7 } (sampleTarget "api" "").Namespace
      (itemsWithErrorEnv.labelsString (sampleTarget "api" "").LabelSelector)).2 =
      some "unexpected EOF" ∧
    getPods itemsWithErrorEnv readyFactory emptyWorld (sampleTarget "api" "") =
      .ok ([samplePod "e1"], emptyWorld.logf .error
        "Error found listing pods labeled with app=api: unexpected EOF") ∧
    ((samplePprof [sampleTarget "api" ""]).getPProf itemsWithErrorEnv readyFactory
      emptyWorld).toOption.map (fun w1 => fsPaths w1.fs) =
      some ["pprof/api-e1-1600000000.pprof"] :=
  ⟨by decide, rfl, by decide⟩

/-- C7 (as amended): for every target list and every resolution outcome, a pass in which
no task panics (the factory holds a client set, every listing hands back a list, every pod
has a container, no executor built is nil) ends; it has one artifact path for each
(target, resolved pod) pair, the path of `<target>-<pod>-<seconds>.pprof` joined to the
directory; the files after it are the files before it and the paths whose creation
succeeded; when every creation succeeds and the paths are new and pairwise distinct, the
files added are exactly these paths, one for each pair; and a target that resolves to no pod
leaves the pairs of the other targets as they are. -/
theorem getPProf_artifacts (env : Env) (fac : measurementFactory) (clientSet : Clientset)
    (p : pprof) (w : World)
    (hclient : fac.clientSet = some clientSet)
    (hlist : ∀ t ∈ p.config.PProfTargets,
      (env.listPods clientSet t.Namespace (env.labelsString t.LabelSelector)).1 ≠ none)
    (hcont : ∀ pair ∈ passPairs env clientSet p.config.PProfTargets,
      pair.2.Spec.Containers ≠ [])
    (hexec : ∀ req, (env.newSPDYExecutor fac.restConfig req).1 ≠ none) :
    ∃ w1, p.getPProf env fac w = .ok w1 ∧
      (pairPaths env p.directory w.clock (passPairs env clientSet p.config.PProfTargets)).length =
        (passPairs env clientSet p.config.PProfTargets).length ∧
      (∀ q, q ∈ fsPaths w1.fs ↔ q ∈ fsPaths w.fs ∨
        (q ∈ pairPaths env p.directory w.clock (passPairs env clientSet p.config.PProfTargets) ∧
          env.createErr q = none)) ∧
      ((∀ q ∈ pairPaths env p.directory w.clock (passPairs env clientSet p.config.PProfTargets),
          env.createErr q = none) →
        (pairPaths env p.directory w.clock
          (passPairs env clientSet p.config.PProfTargets)).Nodup →
        (∀ q ∈ pairPaths env p.directory w.clock (passPairs env clientSet p.config.PProfTargets),
          q ∉ fsPaths w.fs) →
        fsPaths w1.fs =
          (pairPaths env p.directory w.clock
            (passPairs env clientSet p.config.PProfTargets)).reverse ++ fsPaths w.fs) ∧
      (∀ before t after, p.config.PProfTargets = before ++ t :: after →
        resolved env clientSet t = [] →
        passPairs env clientSet p.config.PProfTargets =
          passPairs env clientSet (before ++ after)) := by
  obtain ⟨s1, hs1⟩ := collectTargets_ends env fac clientSet p hclient hexec p.config.PProfTargets
    hlist hcont (Pass.fresh w)
  obtain ⟨-, hfs⟩ := collectTargets_ok env fac clientSet p hclient p.config.PProfTargets
    (Pass.fresh w) s1 hs1
  have hfs1 : fsPaths s1.world.fs = applyCreates env
      (pairPaths env p.directory w.clock (passPairs env clientSet p.config.PProfTargets))
      (fsPaths w.fs) := hfs
  refine ⟨s1.world, by unfold pprof.getPProf; rw [hs1], pairPaths_length _ _ _ _, ?_, ?_, ?_⟩
  · intro q
    rw [hfs1]
    exact applyCreates_mem env _ _ q
  · intro hok hnd hnew
    rw [hfs1]
    exact applyCreates_all_new env _ _ hok hnd hnew
  · intro before t after htargets hnone
    rw [htargets]
    simp [passPairs, hnone]

/-- C7 (as amended) on the example of the claim: one target `api` that resolves to `e1` and
`e2`; the pass adds exactly the two artifacts `api-e1-<ts>` and `api-e2-<ts>`. -/
theorem getPProf_artifacts_witness :
    readyFactory.clientSet = some { id := 7 } ∧
    ∃ w1, (samplePprof [sampleTarget "api" ""]).getPProf sampleEnv readyFactory emptyWorld =
        .ok w1 ∧
      fsPaths w1.fs = ["pprof/api-e2-1600000000.pprof", "pprof/api-e1-1600000000.pprof"] ∧
      w1.fs = [("pprof/api-e2-1600000000.pprof", "profile"),
        ("pprof/api-e1-1600000000.pprof", "profile")] :=
  ⟨rfl,
    match getPProf_artifacts sampleEnv readyFactory { id := 7 } (samplePprof [sampleTarget "api" ""])
      emptyWorld rfl (by decide) (by decide) (fun _ => by simp [sampleEnv]) with
    | ⟨w1, hpass, _, _, hall, _⟩ =>
      ⟨w1, hpass, by
        rw [hall (fun _ _ => rfl) (by decide) (by decide)]
        decide, by
        have h : (samplePprof [sampleTarget "api" ""]).getPProf sampleEnv readyFactory emptyWorld =
          .ok { log := [(.info, "Collecting api pprof")],
                fs := [("pprof/api-e2-1600000000.pprof", "profile"),
                  ("pprof/api-e1-1600000000.pprof", "profile")],
                clock := 2 } := rfl
        rw [h] at hpass
        simp only [Except.ok.injEq] at hpass
        rw [← hpass]⟩⟩

/-- C7 as stated fails: the targets `a-b` and `a` resolve to the pods `c` and `b-c`, two
pairs, and the pass, in which every step succeeds, leaves one artifact. -/
theorem getPProf_two_pairs_one_artifact :
    (passPairs sampleEnv { id := 7 } [sampleTarget "a-b" "", sampleTarget "a" ""]).length = 2 ∧
    (pairPaths sampleEnv "pprof" 0
      (passPairs sampleEnv { id := 7 } [sampleTarget "a-b" "", sampleTarget "a" ""])) =
      ["pprof/a-b-c-1600000000.pprof", "pprof/a-b-c-1600000000.pprof"] ∧
    ((samplePprof [sampleTarget "a-b" "", sampleTarget "a" ""]).getPProf sampleEnv readyFactory
      emptyWorld).toOption.map (fun w1 => fsPaths w1.fs) =
      some ["pprof/a-b-c-1600000000.pprof"] :=
  ⟨by decide, by decide, by decide⟩

/-- C9 fails on the code: in a pass over the target `api` with the bearer token `secret`
(pods `e1` and `e2`) and the target `a` without a token (pod `b-c`), under the schedule
in which the goroutine of `e1` assigns `command`, the goroutine of `b-c` assigns it next
and the goroutine of `e1` then builds its request, the pass ends and the request for `e1`
carries the command without the token, which is the command of the same target with an
empty token, while the request for `e2` of the same target carries the token. When each
goroutine runs to its end as soon as it is started, both carry the token. -/
theorem getPProf_command_race :
    ((samplePprof [sampleTarget "api" "secret", sampleTarget "a" ""]).getPProfUnder sampleEnv
      readyFactory emptyWorld raceSchedule).toOption.map
        (fun r => (r.ended, r.pass.requests.map (fun q => (q.Name, q.Params.Command)))) =
      some (true,
        [("e1", buildCommand (sampleTarget "api" "")),
          ("b-c", buildCommand (sampleTarget "a" "")),
          ("e2", buildCommand (sampleTarget "api" "secret"))]) ∧
    buildCommand (sampleTarget "api" "secret") ≠ buildCommand (sampleTarget "api" "") ∧
    ((samplePprof [sampleTarget "api" "secret", sampleTarget "a" ""]).getPProfUnder sampleEnv
      readyFactory emptyWorld
      (inOrder sampleEnv readyFactory 0 [sampleTarget "api" "secret", sampleTarget "a" ""])).toOption.map
        (fun r => (r.ended, r.pass.requests.map (fun q => (q.Name, q.Params.Command)))) =
      some (true,
        [("e1", buildCommand (sampleTarget "api" "secret")),
          ("e2", buildCommand (sampleTarget "api" "secret")),
          ("b-c", buildCommand (sampleTarget "a" ""))]) :=
  ⟨by decide, by decide, by decide⟩

end measurements
